import Mathlib

/-! DCA container decoder and streaming session.

A shallow embedding of `decode.go` (the container decoder) and of `stream.go`
(the streaming session: its control operations and its delivery task), with
the properties of the specification stated over it.

Modelling conventions.

* A byte is a `UInt8`; a byte stream is the list of its bytes.
* The decoder's `*bufio.Reader` is modelled by the bytes it has not handed
  out yet (`Reader.rest`).  The source behind it is an in-memory byte
  sequence: a read gets the bytes it asks for as long as bytes remain, and
  the end of the data is reported as `io.EOF`.  `Peek` and `io.ReadFull` do
  not depend on how the reader buffers.  The single `Read` of the fingerprint
  does: the model is exact when the reader's buffer is empty or holds the rest
  of the stream, as it is on a fresh decoder and on any stream that fits the
  buffer; a decoder state in the statements below stands for such a reader.
* A Go call either returns or panics; `Result` keeps the two apart.
* `json.Unmarshal` into the repository's `Metadata` type is a parameter
  `unmarshal` of the decoder operations: it maps the metadata bytes to the
  pointer it stores and to the error it returns.
* Go's `int` is 64 bits wide, as on amd64 and arm64; `int` and `int64`
  results are reduced to two's complement by `wrapInt64`.
* The goroutines of a session interleave at the grain of its critical
  sections: a step of a task is one section under the lock, one `DecodeFrame`
  call or one `select` on the sink, and a method call of the controlling side
  is one step.  A schedule is a list of such steps.  A panic stops the
  program; the model keeps the other tasks able to step, which only adds
  behaviours.
-/

set_option autoImplicit false

namespace Dca

/-! ## Errors and results -/

/-- The two kinds of `*strconv.NumError` (`strconv.ErrSyntax`, `strconv.ErrRange`). -/
inductive NumErrKind where
  | ErrSyntax
  | ErrRange
  deriving DecidableEq, Repr

/-- The errors of `json.Unmarshal`. -/
inductive JSONError where
  | SyntaxError
  | UnmarshalTypeError
  deriving DecidableEq, Repr

/-- The error values that flow through the decoder. -/
inductive Error where
  /-- The end-of-stream marker `io.EOF`. -/
  | EOF
  /-- The error `io.ErrUnexpectedEOF`. -/
  | ErrUnexpectedEOF
  /-- The error `ErrNotDCA` of `decode.go`. -/
  | ErrNotDCA
  /-- The error `ErrNotFirstFrame` of `decode.go`. -/
  | ErrNotFirstFrame
  /-- The `*strconv.NumError` of `strconv.ParseInt` on the text `num`. -/
  | NumError (num : List UInt8) (kind : NumErrKind)
  /-- An error returned by `json.Unmarshal`. -/
  | JSON (e : JSONError)
  /-- The frame codec's error for a payload shorter than its declared length. -/
  | TruncatedFrame
  /-- The frame codec's error for a negative declared length. -/
  | NegativeFrameSize
  /-- The error `ErrVoiceConnClosed` of `stream.go`. -/
  | ErrVoiceConnClosed
  deriving DecidableEq, Repr

/-- The outcome of a Go call that returns `(value, error)`: a value with a nil
error, an error, or a run-time panic. -/
inductive Result (α : Type) where
  | ok (a : α)
  | err (e : Error)
  | panic
  deriving DecidableEq, Repr

/-! ## The buffered reader -/

/-- The decoder's reader: the bytes of the stream not yet consumed. -/
structure Reader where
  rest : List UInt8
  deriving DecidableEq, Repr

/-- The Go call `r.Read(p)` with `len(p) = n` on a zeroed `p`: one read, which
copies the bytes available, at most `n`.  Returns the contents of `p` after
the call, the error, and the reader.  On an exhausted stream it reports
`io.EOF` and `p` stays zeroed. -/
def Reader.Read (r : Reader) (n : Nat) : List UInt8 × Option Error × Reader :=
  if n = 0 then ([], none, r)
  else
    match r.rest with
    | [] => (List.replicate n 0, some Error.EOF, r)
    | b :: bs =>
      ((b :: bs).take n ++ List.replicate (n - (b :: bs).length) 0, none, ⟨(b :: bs).drop n⟩)

/-- The Go call `r.Peek(n)`: the next `n` bytes without consuming them, or the
bytes there are together with `io.EOF` when fewer than `n` remain. -/
def Reader.Peek (r : Reader) (n : Nat) : List UInt8 × Option Error :=
  if n ≤ r.rest.length then (r.rest.take n, none) else (r.rest, some Error.EOF)

/-- The Go call `io.ReadFull(r, buf)` with `len(buf) = n`, as `binary.Read`
uses it: exactly `n` bytes, `io.EOF` when none could be read, and
`io.ErrUnexpectedEOF` when the stream ends part-way (the bytes read are
consumed).  A read of zero bytes succeeds without touching the stream. -/
def Reader.ReadFull (r : Reader) (n : Nat) : Except Error (List UInt8) × Reader :=
  if n ≤ r.rest.length then (Except.ok (r.rest.take n), ⟨r.rest.drop n⟩)
  else
    match r.rest with
    | [] => (Except.error Error.EOF, r)
    | _ :: _ => (Except.error Error.ErrUnexpectedEOF, ⟨[]⟩)

/-! ## Integers on the wire -/

/-- The unsigned value of a little-endian byte sequence. -/
def leValue : List UInt8 → Nat
  | [] => 0
  | b :: bs => b.toNat + 256 * leValue bs

/-- The value of `w` little-endian bytes read as a two's-complement signed
integer of `8 * w` bits (`int16` for `w = 2`, `int32` for `w = 4`). -/
def leSigned (w : Nat) (bs : List UInt8) : Int :=
  let u := leValue bs
  if u < 2 ^ (8 * w - 1) then (u : Int) else (u : Int) - 2 ^ (8 * w)

/-! ## `strconv.ParseInt` -/

/-- The loop of `strconv.ParseUint` in base 10: `acc` is the value so far and
`maxVal` the largest value of the bit size.  A character that is not a
decimal digit is a syntax error, a value above `maxVal` a range error. -/
def parseUintLoop (maxVal : Nat) : List UInt8 → Nat → Except NumErrKind Nat
  | [], acc => Except.ok acc
  | c :: cs, acc =>
    if 48 ≤ c.toNat ∧ c.toNat ≤ 57 then
      let n1 := acc * 10 + (c.toNat - 48)
      if maxVal < n1 then Except.error NumErrKind.ErrRange
      else parseUintLoop maxVal cs n1
    else Except.error NumErrKind.ErrSyntax

/-- The Go call `strconv.ParseUint(s, 10, bitSize)`. -/
def ParseUint (s : List UInt8) (bitSize : Nat) : Except NumErrKind Nat :=
  match s with
  | [] => Except.error NumErrKind.ErrSyntax
  | _ :: _ => parseUintLoop (2 ^ bitSize - 1) s 0

/-- The Go call `strconv.ParseInt(s, 10, bitSize)`: an optional sign, then
decimal digits, the value within the signed range of `bitSize` bits. -/
def ParseInt (s : List UInt8) (bitSize : Nat) : Except Error Int :=
  match s with
  | [] => Except.error (Error.NumError s NumErrKind.ErrSyntax)
  | c :: cs =>
    let neg := c = 45
    let digits := if c = 43 ∨ c = 45 then cs else s
    match ParseUint digits bitSize with
    | Except.error NumErrKind.ErrSyntax => Except.error (Error.NumError s NumErrKind.ErrSyntax)
    | Except.error NumErrKind.ErrRange => Except.error (Error.NumError s NumErrKind.ErrRange)
    | Except.ok un =>
      let cutoff := 2 ^ (bitSize - 1)
      if ¬ neg ∧ cutoff ≤ un then Except.error (Error.NumError s NumErrKind.ErrRange)
      else if neg ∧ cutoff < un then Except.error (Error.NumError s NumErrKind.ErrRange)
      else Except.ok (if neg then -(un : Int) else (un : Int))

/-! ## The frame codec -/

/-- Modelled from the spec: `DecodeFrame`, the frame codec of section 4.1,
whose source is not part of `decode.go` or `stream.go`.  It reads the 2-byte
little-endian `int16` length prefix of section 6 and then exactly that many
payload bytes.  It fails with end-of-stream (`io.EOF`) when the prefix cannot
be read because the stream is exhausted (fewer than two bytes are left), and
with `TruncatedFrame` when fewer bytes than the declared length are
available; it has no effect but advancing the stream.  The spec does not say
what a negative length does: the model reports it as `NegativeFrameSize`. -/
def DecodeFrame (r : Reader) : Result (List UInt8) × Reader :=
  if r.rest.length < 2 then (Result.err Error.EOF, ⟨[]⟩)
  else
    let size := leSigned 2 (r.rest.take 2)
    let r1 : Reader := ⟨r.rest.drop 2⟩
    if size < 0 then (Result.err Error.NegativeFrameSize, r1)
    else if r1.rest.length < size.toNat then (Result.err Error.TruncatedFrame, ⟨[]⟩)
    else (Result.ok (r1.rest.take size.toNat), ⟨r1.rest.drop size.toNat⟩)

/-! ## The container decoder (`decode.go`) -/

/-- The ASCII bytes of the literal `"DCA"`. -/
def magicDCA : List UInt8 := [68, 67, 65]

/-- The `Decoder` struct; `M` is the repository's `Metadata` type and a nil
`*Metadata` is `none`. -/
structure Decoder (M : Type) where
  Metadata : Option M
  FormatVersion : Int
  r : Reader
  firstFrameProcessed : Bool
  deriving DecidableEq, Repr

/-- The function `NewDecoder`: a decoder on the stream `bs` with zero-valued fields. -/
def NewDecoder {M : Type} (bs : List UInt8) : Decoder M :=
  { Metadata := none, FormatVersion := 0, r := ⟨bs⟩, firstFrameProcessed := false }

/-- The method `Decoder.ReadMetadata`.  The statement `make([]byte, metaLen)`
panics for a negative `metaLen`. -/
def ReadMetadata {M : Type} (unmarshal : List UInt8 → Option M × Option JSONError)
    (d : Decoder M) : Decoder M × Result Unit :=
  if d.firstFrameProcessed then (d, Result.err Error.ErrNotFirstFrame)
  else
    let d := { d with firstFrameProcessed := true }
    match d.r.Read 4 with
    | (_, some e, r1) => ({ d with r := r1 }, Result.err e)
    | (fingerprint, none, r1) =>
      let d := { d with r := r1 }
      if fingerprint.take 3 ≠ magicDCA then (d, Result.err Error.ErrNotDCA)
      else
        match ParseInt (fingerprint.drop 3) 32 with
        | Except.error e => (d, Result.err e)
        | Except.ok version =>
          let d := { d with FormatVersion := version }
          match d.r.ReadFull 4 with
          | (Except.error e, r2) => ({ d with r := r2 }, Result.err e)
          | (Except.ok lenBytes, r2) =>
            let d := { d with r := r2 }
            let metaLen := leSigned 4 lenBytes
            if metaLen < 0 then (d, Result.panic)
            else
              match d.r.ReadFull metaLen.toNat with
              | (Except.error e, r3) => ({ d with r := r3 }, Result.err e)
              | (Except.ok jsonBuf, r3) =>
                let d := { d with r := r3 }
                match unmarshal jsonBuf with
                | (metadata, none) => ({ d with Metadata := metadata }, Result.ok ())
                | (metadata, some e) =>
                  ({ d with Metadata := metadata }, Result.err (Error.JSON e))

/-- The method `Decoder.OpusFrame`. -/
def OpusFrame {M : Type} (unmarshal : List UInt8 → Option M × Option JSONError)
    (d : Decoder M) : Decoder M × Result (List UInt8) :=
  let decode := fun (d : Decoder M) =>
    let fr := DecodeFrame d.r
    (({ d with r := fr.2 } : Decoder M), fr.1)
  if ¬ d.firstFrameProcessed then
    match d.r.Peek 3 with
    | (_, some e) => (d, Result.err e)
    | (magic, none) =>
      if magic = magicDCA then
        match ReadMetadata unmarshal d with
        | (d1, Result.err e) => (d1, Result.err e)
        | (d1, Result.panic) => (d1, Result.panic)
        | (d1, Result.ok ()) => decode d1
      else decode d
  else decode d

/-! ## Repeated calls and the wire encoding -/

/-- The results of `n` successive `OpusFrame` calls, and the decoder after them. -/
def opusFrames {M : Type} (unmarshal : List UInt8 → Option M × Option JSONError) :
    Nat → Decoder M → List (Result (List UInt8)) × Decoder M
  | 0, d => ([], d)
  | n + 1, d =>
    let step := OpusFrame unmarshal d
    let later := opusFrames unmarshal n step.1
    (step.2 :: later.1, later.2)

/-- The results of `n` successive `DecodeFrame` calls, and the reader after them. -/
def decodeFrames : Nat → Reader → List (Result (List UInt8)) × Reader
  | 0, r => ([], r)
  | n + 1, r =>
    let step := DecodeFrame r
    let later := decodeFrames n step.2
    (step.1 :: later.1, later.2)

/-- The `w`-byte little-endian encoding of `n`. -/
def leBytes : Nat → Nat → List UInt8
  | 0, _ => []
  | w + 1, n => UInt8.ofNat (n % 256) :: leBytes w (n / 256)

/-- The wire form of one frame (section 6): `int16` length, then the payload. -/
def encodeFrame (p : List UInt8) : List UInt8 := leBytes 2 p.length ++ p

/-- The wire form of a frame sequence. -/
def encodeFrames : List (List UInt8) → List UInt8
  | [] => []
  | p :: ps => encodeFrame p ++ encodeFrames ps

/-- The wire form of a container (section 6): `"DCA"`, the version digit,
the `int32` metadata length, the metadata, then the frames. -/
def encodeContainer (version : Nat) (m : List UInt8) (ps : List (List UInt8)) : List UInt8 :=
  magicDCA ++ [UInt8.ofNat (48 + version)] ++ leBytes 4 m.length ++ m ++ encodeFrames ps

/-- The composition the spec equates with the first `OpusFrame` call on a
stream with a header: `ReadMetadata`, and, when it returns nil, `DecodeFrame`
on the reader it leaves.  A failure of `ReadMetadata` is the result, with no
frame decoded. -/
def readMetadataThenDecodeFrame {M : Type}
    (unmarshal : List UInt8 → Option M × Option JSONError) (d : Decoder M) :
    Decoder M × Result (List UInt8) :=
  match ReadMetadata unmarshal d with
  | (d1, Result.ok ()) => ({ d1 with r := (DecodeFrame d1.r).2 }, (DecodeFrame d1.r).1)
  | (d1, Result.err e) => (d1, Result.err e)
  | (d1, Result.panic) => (d1, Result.panic)

/-- A stand-in for `json.Unmarshal` used on concrete inputs: the metadata is
kept as its text, a text in braces is accepted, the text `null` gives a nil
pointer, and anything else is a syntax error. -/
def unmarshalSample (bs : List UInt8) : Option (List UInt8) × Option JSONError :=
  if bs = [110, 117, 108, 108] then (none, none)
  else if bs.head? = some 123 ∧ bs.getLast? = some 125 then (some bs, none)
  else (none, some JSONError.SyntaxError)

/-! ## The streaming session (`stream.go`) -/

/-- The fields of `StreamingSession` that the session's mutex guards. -/
structure StreamingSession where
  paused : Bool
  framesSent : Int
  finished : Bool
  running : Bool
  err : Option Error
  deriving DecidableEq, Repr

/-- The method `StreamingSession.SetPaused`, which runs under the session's
lock from its first statement to its last.  The second component tells
whether the call executed `go s.stream()`. -/
def SetPaused (s : StreamingSession) (paused : Bool) : StreamingSession × Bool :=
  if s.finished then (s, false)
  else if !paused && s.running then
    (if s.paused then { s with paused := false } else s, false)
  else if paused && !s.running then
    (if !s.paused then { s with paused := true } else s, false)
  else
    ({ s with paused := paused }, !s.running && s.paused && !paused)

/-- The value of `x` in 64-bit two's complement: what the arithmetic of
`int64`, and of `int` on a 64-bit platform, keeps of a result. -/
def wrapInt64 (x : Int) : Int := (x + 2 ^ 63) % 2 ^ 64 - 2 ^ 63

/-- The method `StreamingSession.Paused`: the pause flag, read under the lock. -/
def Paused (s : StreamingSession) : StreamingSession × Bool := (s, s.paused)

/-- The method `StreamingSession.Finished`: the pair `(finished, err)`, read
under the lock. -/
def Finished (s : StreamingSession) : StreamingSession × (Bool × Option Error) :=
  (s, (s.finished, s.err))

/-- The method `StreamingSession.PlaybackPosition`, with `frameDuration` the
value of `s.e.Options().FrameDuration`.  The result is a `time.Duration`, a
count of nanoseconds in an `int64`: the `int` product `framesSent *
FrameDuration` converted and multiplied by `time.Millisecond = 1000000`. -/
def PlaybackPosition (s : StreamingSession) (frameDuration : Int) : StreamingSession × Int :=
  (s, wrapInt64 (wrapInt64 (s.framesSent * frameDuration) * 1000000))

/-- Modelled from the spec: the encoder source `EncodeSession`, whose
declaration is not part of `stream.go`, as far as `stream.go` uses it: the
bytes it has still to deliver to `DecodeFrame`, the `FrameDuration` of its
options, and the number of `Truncate` calls it has received. -/
structure EncodeSession where
  r : Reader
  FrameDuration : Int
  truncateCalls : Nat
  deriving DecidableEq, Repr

/-- Modelled from the spec: `EncodeSession.Truncate`, the encoder source's
truncate/reset operation, whose source is not part of `stream.go`: it
releases the buffered, undelivered data. -/
def EncodeSession.Truncate (e : EncodeSession) : EncodeSession :=
  { e with r := ⟨[]⟩, truncateCalls := e.truncateCalls + 1 }

/-- Where a goroutine running `StreamingSession.stream` stands.  Each state
is followed by one step: a critical section of `stream` or `readNext`, the
`DecodeFrame` call, or the `select` on the sink, the last two outside the
lock. -/
inductive TaskState where
  /-- Started by a `go s.stream()` statement, before the first critical section. -/
  | spawned
  /-- At the head of the `for` loop, before the check of `paused`. -/
  | loopTop
  /-- In `readNext`, before the `DecodeFrame` call. -/
  | decoding
  /-- In `readNext`, holding the frame `opus`, before the `select`. -/
  | sending (opus : List UInt8)
  /-- In `readNext`, the frame accepted by the sink, before `framesSent++`. -/
  | counting
  /-- Back in `stream` with the error `err` of `readNext`, before the critical
  section that records it. -/
  | failed (err : Error)
  /-- Out of the loop, before the deferred critical section. -/
  | exiting
  /-- Returned from `stream`. -/
  | done
  /-- Stopped by `panic("Stream is already running!")`. -/
  | panicked
  deriving DecidableEq, Repr

/-- Whether a task has set `running` and not yet cleared it. -/
def TaskState.inLoop : TaskState → Bool
  | TaskState.loopTop => true
  | TaskState.decoding => true
  | TaskState.sending _ => true
  | TaskState.counting => true
  | TaskState.failed _ => true
  | TaskState.exiting => true
  | _ => false

/-- A streaming session in its surroundings: the guarded fields `s`, the
encoder source `e`, the frames the sink `vc.OpusSend` has accepted, oldest
first, and the goroutines started on `stream`, in the order of their `go`
statements. -/
structure World where
  s : StreamingSession
  e : EncodeSession
  sent : List (List UInt8)
  tasks : List TaskState
  deriving DecidableEq, Repr

/-- The function `StreamFromEncodeSession`: a session with zero-valued fields
on the encoder source `e` and an empty sink, and the first `go
session.stream()`. -/
def StreamFromEncodeSession (e : EncodeSession) : World :=
  { s := { paused := false, framesSent := 0, finished := false, running := false,
           err := none },
    e := e, sent := [], tasks := [TaskState.spawned] }

/-- One step of the goroutine `i` running `StreamingSession.stream` (with
`readNext` inlined); `accept` tells whether the sink takes the frame before
the timeout and matters in the state `sending` only.  A task that returned or
panicked, or an index without a task, leaves the world as it is. -/
def streamStep (w : World) (i : Nat) (accept : Bool) : World :=
  match w.tasks[i]? with
  | none => w
  | some TaskState.spawned =>
    if w.s.running then { w with tasks := w.tasks.set i TaskState.panicked }
    else { w with s := { w.s with running := true },
                  tasks := w.tasks.set i TaskState.loopTop }
  | some TaskState.loopTop =>
    if w.s.paused then { w with tasks := w.tasks.set i TaskState.exiting }
    else { w with tasks := w.tasks.set i TaskState.decoding }
  | some TaskState.decoding =>
    match DecodeFrame w.e.r with
    | (Result.ok opus, r) =>
      { w with e := { w.e with r := r }, tasks := w.tasks.set i (TaskState.sending opus) }
    | (Result.err err, r) =>
      { w with e := { w.e with r := r }, tasks := w.tasks.set i (TaskState.failed err) }
    | (Result.panic, r) =>
      { w with e := { w.e with r := r }, tasks := w.tasks.set i TaskState.panicked }
  | some (TaskState.sending opus) =>
    if accept then
      { w with sent := w.sent ++ [opus], tasks := w.tasks.set i TaskState.counting }
    else
      { w with tasks := w.tasks.set i (TaskState.failed Error.ErrVoiceConnClosed) }
  | some TaskState.counting =>
    { w with s := { w.s with framesSent := wrapInt64 (w.s.framesSent + 1) },
             tasks := w.tasks.set i TaskState.loopTop }
  | some (TaskState.failed err) =>
    { w with s := { w.s with finished := true,
                             err := if err ≠ Error.EOF then some err else w.s.err },
             e := w.e.Truncate,
             tasks := w.tasks.set i TaskState.exiting }
  | some TaskState.exiting =>
    { w with s := { w.s with running := false }, tasks := w.tasks.set i TaskState.done }
  | some TaskState.done => w
  | some TaskState.panicked => w

/-- What can happen next to a session: a call of one of its methods by the
controlling side, or a step of one of its goroutines. -/
inductive Action where
  | SetPaused (v : Bool)
  | Paused
  | Finished
  | PlaybackPosition
  | task (i : Nat) (accept : Bool)
  deriving DecidableEq, Repr

/-- The world after one action.  A `SetPaused` call that executes
`go s.stream()` adds a goroutine. -/
def step (w : World) : Action → World
  | Action.SetPaused v =>
    { w with s := (SetPaused w.s v).1,
             tasks := if (SetPaused w.s v).2 then w.tasks ++ [TaskState.spawned]
                      else w.tasks }
  | Action.Paused => { w with s := (Paused w.s).1 }
  | Action.Finished => { w with s := (Finished w.s).1 }
  | Action.PlaybackPosition => { w with s := (PlaybackPosition w.s w.e.FrameDuration).1 }
  | Action.task i accept => streamStep w i accept

/-- The world after a sequence of actions, the schedule. -/
def run (w : World) : List Action → World
  | [] => w
  | a :: as => run (step w a) as

/-- Mutual exclusion of the delivery tasks, on the flag `running` and the
list of tasks: while `running` is false no task is in the loop, and no two
tasks are in the loop at once. -/
def Exclusive (running : Bool) (tasks : List TaskState) : Prop :=
  (running = false → ∀ (j : Nat) (t : TaskState), tasks[j]? = some t → t.inLoop = false) ∧
  (∀ (j k : Nat) (tj tk : TaskState), tasks[j]? = some tj → tasks[k]? = some tk →
    tj.inLoop = true → tk.inLoop = true → j = k)

/-- A session stopped by the sink timeout of the task `i`: the sink holds
`sent0` and the counter is `n0`; and either the task `i` still holds the
error and is the only task in the loop, or the error is recorded, the source
is empty, and no task holds a frame or an error other than `io.EOF`. -/
def Halted (sent0 : List (List UInt8)) (n0 : Int) (i : Nat) (w : World) : Prop :=
  w.sent = sent0 ∧ w.s.framesSent = n0 ∧
  ((w.tasks[i]? = some (TaskState.failed Error.ErrVoiceConnClosed) ∧
      w.s.running = true ∧
      ∀ (j : Nat) (t : TaskState), j ≠ i → w.tasks[j]? = some t → t.inLoop = false) ∨
    (w.s.finished = true ∧ w.s.err = some Error.ErrVoiceConnClosed ∧ w.e.r.rest = [] ∧
      ∀ (j : Nat) (t : TaskState), w.tasks[j]? = some t →
        (∀ opus, t ≠ TaskState.sending opus) ∧ t ≠ TaskState.counting ∧
        (∀ err, t = TaskState.failed err → err = Error.EOF)))

/-- What the state of the task in the loop (`none` when no task is in the
loop) says about a session whose source held the frames `fs`: how the source,
the sink and the counter stand to each other. -/
def Aligned (fs : List (List UInt8)) (w : World) : Option TaskState → Prop
  | some (TaskState.sending opus) =>
    fs.drop w.sent.length = opus :: fs.drop (w.sent.length + 1) ∧
    w.e.r.rest = encodeFrames (fs.drop (w.sent.length + 1)) ∧
    w.s.framesSent = (w.sent.length : Int) ∧ w.s.finished = false
  | some TaskState.counting =>
    w.e.r.rest = encodeFrames (fs.drop w.sent.length) ∧
    w.s.framesSent + 1 = (w.sent.length : Int) ∧ w.s.finished = false
  | some (TaskState.failed err) =>
    err = Error.EOF ∧ w.sent.length = fs.length ∧ w.e.r.rest = [] ∧
    w.s.framesSent = (w.sent.length : Int)
  | _ =>
    w.e.r.rest = encodeFrames (fs.drop w.sent.length) ∧
    w.s.framesSent = (w.sent.length : Int) ∧
    (w.s.finished = true → w.sent.length = fs.length)

section Lemmas

variable {M : Type}

theorem length_leBytes (w n : Nat) : (leBytes w n).length = w := by
  induction w generalizing n with
  | zero => rfl
  | succ w ih => simp [leBytes, ih]

theorem leValue_leBytes (w n : Nat) : leValue (leBytes w n) = n % 256 ^ w := by
  induction w generalizing n with
  | zero => simp [leBytes, leValue, Nat.mod_one]
  | succ w ih =>
    have hb : (UInt8.ofNat (n % 256)).toNat = n % 256 :=
      UInt8.toNat_ofNat_of_lt (Nat.mod_lt _ (by decide))
    rw [leBytes, leValue, ih, hb, pow_succ, Nat.mul_comm (256 ^ w) 256, Nat.mod_mul]

theorem leSigned_leBytes (w n : Nat) (h : n < 2 ^ (8 * w - 1)) :
    leSigned w (leBytes w n) = (n : Int) := by
  have hlt : n < 256 ^ w := by
    have h1 : 2 ^ (8 * w - 1) ≤ 2 ^ (8 * w) := Nat.pow_le_pow_right (by decide) (by omega)
    have h2 : (256 : Nat) ^ w = 2 ^ (8 * w) := by
      rw [show (256 : Nat) = 2 ^ 8 from rfl, ← pow_mul]
    omega
  simp [leSigned, leValue_leBytes, Nat.mod_eq_of_lt hlt, h]

theorem ReadFull_append (xs rest : List UInt8) :
    Reader.ReadFull ⟨xs ++ rest⟩ xs.length = (Except.ok xs, ⟨rest⟩) := by
  simp [Reader.ReadFull]

theorem DecodeFrame_encodeFrame (p rest : List UInt8) (h : p.length < 2 ^ 15) :
    DecodeFrame ⟨encodeFrame p ++ rest⟩ = (Result.ok p, ⟨rest⟩) := by
  have hs : leSigned 2 (leBytes 2 p.length) = (p.length : Int) :=
    leSigned_leBytes 2 p.length (by simpa using h)
  have htake : (encodeFrame p ++ rest).take 2 = leBytes 2 p.length := by
    simp [encodeFrame, length_leBytes]
  have hdrop : (encodeFrame p ++ rest).drop 2 = p ++ rest := by
    simp [encodeFrame, length_leBytes]
  have hlen : ¬ (encodeFrame p ++ rest).length < 2 := by
    simp [encodeFrame, length_leBytes]
  have hneg : ¬ ((p.length : Int) < 0) := by omega
  unfold DecodeFrame
  simp only [hlen, htake, hdrop, hs, hneg, if_false, Int.toNat_ofNat]
  simp

theorem DecodeFrame_nil : DecodeFrame ⟨[]⟩ = (Result.err Error.EOF, ⟨[]⟩) := by
  simp [DecodeFrame]

theorem decodeFrames_encodeFrames (ps : List (List UInt8))
    (h : ∀ p ∈ ps, p.length < 2 ^ 15) :
    decodeFrames (ps.length + 1) ⟨encodeFrames ps⟩ =
      (ps.map Result.ok ++ [Result.err Error.EOF], ⟨[]⟩) := by
  induction ps with
  | nil => simp [decodeFrames, encodeFrames, DecodeFrame_nil]
  | cons p ps ih =>
    have hp : p.length < 2 ^ 15 := h p (List.mem_cons_self _ _)
    have hps : ∀ q ∈ ps, q.length < 2 ^ 15 := fun q hq => h q (List.mem_cons_of_mem _ hq)
    have ih1 := ih hps
    rw [List.length_cons, decodeFrames, encodeFrames, DecodeFrame_encodeFrame p _ hp]
    simp only [ih1, List.map_cons, List.cons_append]

/-! ## Lemmas on the decoder -/

theorem exists_four_of_length (l : List UInt8) (h : 4 ≤ l.length) :
    ∃ a b c e rest, l = a :: b :: c :: e :: rest := by
  match l, h with
  | a :: b :: c :: e :: rest, _ => exact ⟨a, b, c, e, rest, rfl⟩

theorem ParseInt_single (c : UInt8) :
    ParseInt [c] 32 =
      if 48 ≤ c.toNat ∧ c.toNat ≤ 57 then Except.ok ((c.toNat : Int) - 48)
      else Except.error (Error.NumError [c] NumErrKind.ErrSyntax) := by
  by_cases h43 : c = 43
  · subst h43; rfl
  by_cases h45 : c = 45
  · subst h45; rfl
  by_cases hd : 48 ≤ c.toNat ∧ c.toNat ≤ 57
  · have h1 : ¬ (4294967295 < c.toNat - 48) := by omega
    have h2 : ¬ (2147483648 ≤ c.toNat - 48) := by omega
    have h3 : ((c.toNat - 48 : Nat) : Int) = (c.toNat : Int) - 48 := by omega
    simp [ParseInt, ParseUint, parseUintLoop, h43, h45, hd, h1, h2, h3]
  · simp [ParseInt, ParseUint, parseUintLoop, h43, h45, hd]

theorem ReadMetadata_of_processed (u : List UInt8 → Option M × Option JSONError)
    (d : Decoder M) (h : d.firstFrameProcessed = true) :
    ReadMetadata u d = (d, Result.err Error.ErrNotFirstFrame) := by
  simp [ReadMetadata, h]

theorem ReadMetadata_sets_processed (u : List UInt8 → Option M × Option JSONError)
    (d : Decoder M) : (ReadMetadata u d).1.firstFrameProcessed = true := by
  unfold ReadMetadata
  cases h : d.firstFrameProcessed
  · simp only [Bool.false_eq_true, if_false]
    repeat' split
    all_goals simp
  · simp [h]

/-- What `ReadMetadata` does on a decoder that has not processed its first
frame and has at least four unread bytes, up to the parse of the version. -/
theorem ReadMetadata_four (u : List UInt8 → Option M × Option JSONError) (d : Decoder M)
    (a b c e : UInt8) (rest : List UInt8) (hf : d.firstFrameProcessed = false)
    (hr : d.r.rest = a :: b :: c :: e :: rest) :
    ([a, b, c] ≠ magicDCA →
      ReadMetadata u d =
        ({ d with firstFrameProcessed := true, r := ⟨rest⟩ }, Result.err Error.ErrNotDCA)) ∧
    ([a, b, c] = magicDCA → ¬ (48 ≤ e.toNat ∧ e.toNat ≤ 57) →
      ReadMetadata u d =
        ({ d with firstFrameProcessed := true, r := ⟨rest⟩ },
          Result.err (Error.NumError [e] NumErrKind.ErrSyntax))) := by
  constructor
  · intro hm
    simp [ReadMetadata, hf, hr, Reader.Read, hm]
  · intro hm hd
    simp [ReadMetadata, hf, hr, Reader.Read, hm, ParseInt_single, hd]

theorem OpusFrame_of_processed (u : List UInt8 → Option M × Option JSONError)
    (d : Decoder M) (h : d.firstFrameProcessed = true) :
    OpusFrame u d = ({ d with r := (DecodeFrame d.r).2 }, (DecodeFrame d.r).1) := by
  simp [OpusFrame, h]

theorem opusFrames_of_processed (u : List UInt8 → Option M × Option JSONError) (n : Nat)
    (d : Decoder M) (h : d.firstFrameProcessed = true) :
    opusFrames u n d = ((decodeFrames n d.r).1, { d with r := (decodeFrames n d.r).2 }) := by
  induction n generalizing d with
  | zero => simp [opusFrames, decodeFrames]
  | succ n ih =>
    rw [opusFrames, OpusFrame_of_processed u d h]
    simp only [decodeFrames]
    rw [ih _ (by simpa using h)]

theorem ReadFull_error (r r1 : Reader) (n : Nat) (e : Error)
    (h : r.ReadFull n = (Except.error e, r1)) :
    e = Error.EOF ∨ e = Error.ErrUnexpectedEOF := by
  unfold Reader.ReadFull at h
  split at h
  · simp at h
  · split at h
    · simp only [Prod.mk.injEq, Except.error.injEq] at h
      exact Or.inl h.1.symm
    · simp only [Prod.mk.injEq, Except.error.injEq] at h
      exact Or.inr h.1.symm

/-- The method `ReadMetadata` after a header `"DCA"` and a digit `e`: the
version is stored and the metadata block is read. -/
theorem ReadMetadata_header (u : List UInt8 → Option M × Option JSONError) (d : Decoder M)
    (e : UInt8) (rest : List UInt8) (hf : d.firstFrameProcessed = false)
    (hr : d.r.rest = magicDCA ++ e :: rest) (hd : 48 ≤ e.toNat ∧ e.toNat ≤ 57) :
    ReadMetadata u d =
      match Reader.ReadFull ⟨rest⟩ 4 with
      | (Except.error err, r2) =>
        ({ Metadata := d.Metadata, FormatVersion := (e.toNat : Int) - 48, r := r2,
            firstFrameProcessed := true }, Result.err err)
      | (Except.ok lenBytes, r2) =>
        if leSigned 4 lenBytes < 0 then
          ({ Metadata := d.Metadata, FormatVersion := (e.toNat : Int) - 48, r := r2,
              firstFrameProcessed := true }, Result.panic)
        else
          match r2.ReadFull (leSigned 4 lenBytes).toNat with
          | (Except.error err, r3) =>
            ({ Metadata := d.Metadata, FormatVersion := (e.toNat : Int) - 48, r := r3,
                firstFrameProcessed := true }, Result.err err)
          | (Except.ok jsonBuf, r3) =>
            match u jsonBuf with
            | (metadata, none) =>
              ({ Metadata := metadata, FormatVersion := (e.toNat : Int) - 48, r := r3,
                  firstFrameProcessed := true }, Result.ok ())
            | (metadata, some err) =>
              ({ Metadata := metadata, FormatVersion := (e.toNat : Int) - 48, r := r3,
                  firstFrameProcessed := true }, Result.err (Error.JSON err)) := by
  have h0 : 4 - (rest.length + 1 + 1 + 1 + 1) = 0 := by omega
  unfold ReadMetadata
  simp only [hf, hr, magicDCA, Reader.Read, List.cons_append, List.nil_append]
  simp only [Bool.false_eq_true, if_false, OfNat.ofNat_ne_zero, List.take, List.drop,
    List.length_cons, ne_eq, not_true_eq_false, h0, List.replicate, List.append_nil,
    ParseInt_single, hd, and_self, if_true]

/-- Past the version step: on a header whose fourth byte is a digit,
`ReadMetadata` stores the digit's value and does not return a parse error. -/
theorem ReadMetadata_digit (u : List UInt8 → Option M × Option JSONError) (d : Decoder M)
    (e : UInt8) (rest : List UInt8) (hf : d.firstFrameProcessed = false)
    (hr : d.r.rest = magicDCA ++ e :: rest) (hd : 48 ≤ e.toNat ∧ e.toNat ≤ 57) :
    (ReadMetadata u d).1.FormatVersion = (e.toNat : Int) - 48 ∧
    ∀ num kind, (ReadMetadata u d).2 ≠ Result.err (Error.NumError num kind) := by
  rw [ReadMetadata_header u d e rest hf hr hd]
  split
  · next err r2 h =>
    refine ⟨rfl, fun num kind hc => ?_⟩
    rcases ReadFull_error _ _ _ _ h with h1 | h1 <;> simp [h1] at hc
  · split
    · exact ⟨rfl, fun num kind hc => by simp at hc⟩
    · split
      · next err r3 h =>
        refine ⟨rfl, fun num kind hc => ?_⟩
        rcases ReadFull_error _ _ _ _ h with h1 | h1 <;> simp [h1] at hc
      · split
        · exact ⟨rfl, fun num kind hc => by simp at hc⟩
        · exact ⟨rfl, fun num kind hc => by simp at hc⟩

theorem ReadFull_append_of_length (xs rest : List UInt8) (n : Nat) (h : xs.length = n) :
    Reader.ReadFull ⟨xs ++ rest⟩ n = (Except.ok xs, ⟨rest⟩) := by
  subst h
  exact ReadFull_append xs rest

/-- The method `ReadMetadata` on a well-formed container: it succeeds, stores
the version and the metadata, and leaves the reader at the first frame. -/
theorem ReadMetadata_encodeContainer (u : List UInt8 → Option M × Option JSONError)
    (version : Nat) (m : List UInt8) (md : Option M) (ps : List (List UInt8))
    (hv : version ≤ 9) (hm : m.length < 2 ^ 31) (hu : u m = (md, none)) :
    ReadMetadata u (NewDecoder (encodeContainer version m ps)) =
      ({ Metadata := md, FormatVersion := (version : Int), r := ⟨encodeFrames ps⟩,
          firstFrameProcessed := true }, Result.ok ()) := by
  have hb : (UInt8.ofNat (48 + version)).toNat = 48 + version :=
    UInt8.toNat_ofNat_of_lt (by simp only [UInt8.size]; omega)
  have hr : (NewDecoder (encodeContainer version m ps) : Decoder M).r.rest =
      magicDCA ++ UInt8.ofNat (48 + version) ::
        (leBytes 4 m.length ++ (m ++ encodeFrames ps)) := by
    simp [NewDecoder, encodeContainer, List.append_assoc]
  have hd : 48 ≤ (UInt8.ofNat (48 + version)).toNat ∧
      (UInt8.ofNat (48 + version)).toNat ≤ 57 := by
    rw [hb]; omega
  have hs : leSigned 4 (leBytes 4 m.length) = (m.length : Int) :=
    leSigned_leBytes 4 m.length (by simpa using hm)
  have hneg : ¬ ((m.length : Int) < 0) := by omega
  rw [ReadMetadata_header u _ _ _ rfl hr hd,
    ReadFull_append_of_length _ _ 4 (length_leBytes 4 m.length)]
  simp only [hs, hneg, if_false, Int.toNat_ofNat]
  rw [ReadFull_append_of_length m _ m.length rfl]
  simp only [hu, hb]
  simp [NewDecoder]

/-- The method `ReadMetadata` on a non-empty stream that does not begin with
`"DCA"`: it fails with `ErrNotDCA` after consuming the four bytes of the
fingerprint (all the bytes when fewer remain). -/
theorem ReadMetadata_not_dca (u : List UInt8 → Option M × Option JSONError) (d : Decoder M)
    (hf : d.firstFrameProcessed = false) (hne : d.r.rest ≠ [])
    (hm : d.r.rest.take 3 ≠ magicDCA) :
    ReadMetadata u d =
      ({ d with firstFrameProcessed := true, r := ⟨d.r.rest.drop 4⟩ },
        Result.err Error.ErrNotDCA) := by
  match hr : d.r.rest with
  | [] => exact absurd hr hne
  | [a] =>
    simp [ReadMetadata, hf, hr, Reader.Read, magicDCA]
  | [a, b] =>
    simp [ReadMetadata, hf, hr, Reader.Read, magicDCA]
  | [a, b, c] =>
    rw [hr] at hm
    simp only [List.take] at hm
    simp [ReadMetadata, hf, hr, Reader.Read, hm]
  | a :: b :: c :: e :: rest =>
    rw [hr] at hm
    simp only [List.take] at hm
    simpa using (ReadMetadata_four u d a b c e rest hf hr).1 hm

theorem OpusFrame_of_magic (u : List UInt8 → Option M × Option JSONError) (d : Decoder M)
    (hf : d.firstFrameProcessed = false) (hm : d.r.rest.take 3 = magicDCA) :
    OpusFrame u d = readMetadataThenDecodeFrame u d := by
  have hlen : 3 ≤ d.r.rest.length := by
    have h := congrArg List.length hm
    simp only [List.length_take, magicDCA, List.length_cons, List.length_nil] at h
    omega
  unfold OpusFrame readMetadataThenDecodeFrame
  simp only [hf, Reader.Peek, hlen, hm, Bool.false_eq_true, not_false_eq_true, if_true]
  rcases hres : ReadMetadata u d with ⟨d1, res⟩
  cases res <;> rfl

end Lemmas

/-! ## Lemmas on the streaming session -/

section SessionLemmas

theorem SetPaused_running (s : StreamingSession) (v : Bool) :
    (SetPaused s v).1.running = s.running := by
  unfold SetPaused
  repeat' split
  all_goals rfl

theorem SetPaused_finished (s : StreamingSession) (v : Bool) :
    (SetPaused s v).1.finished = s.finished := by
  unfold SetPaused
  repeat' split
  all_goals rfl

theorem SetPaused_err (s : StreamingSession) (v : Bool) :
    (SetPaused s v).1.err = s.err := by
  unfold SetPaused
  repeat' split
  all_goals rfl

theorem SetPaused_framesSent (s : StreamingSession) (v : Bool) :
    (SetPaused s v).1.framesSent = s.framesSent := by
  unfold SetPaused
  repeat' split
  all_goals rfl

theorem wrapInt64_of_range (x : Int) (hlo : -(2 ^ 63) ≤ x) (hhi : x < 2 ^ 63) :
    wrapInt64 x = x := by
  unfold wrapInt64
  rw [Int.emod_eq_of_lt (by omega) (by omega)]
  omega

theorem wrapInt64_mul_wrapInt64 (a c : Int) :
    wrapInt64 (wrapInt64 a * c) = wrapInt64 (a * c) := by
  have h : wrapInt64 a = a - 2 ^ 64 * ((a + 2 ^ 63) / 2 ^ 64) := by
    unfold wrapInt64
    rw [Int.emod_def]
    ring
  have h2 : wrapInt64 a * c + 2 ^ 63
      = (a * c + 2 ^ 63) + 2 ^ 64 * (-(((a + 2 ^ 63) / 2 ^ 64) * c)) := by
    rw [h]; ring
  unfold wrapInt64 at *
  rw [h2, Int.add_mul_emod_self_left]

theorem streamStep_finished (w : World) (i : Nat) (accept : Bool)
    (h : w.s.finished = true) : (streamStep w i accept).s.finished = true := by
  unfold streamStep
  repeat' split
  all_goals simp [h]

theorem step_finished (w : World) (a : Action) (h : w.s.finished = true) :
    (step w a).s.finished = true := by
  cases a with
  | SetPaused v => simp [step, SetPaused_finished, h]
  | Paused => simpa [step, Paused] using h
  | Finished => simpa [step, Finished] using h
  | PlaybackPosition => simpa [step, PlaybackPosition] using h
  | task i accept => exact streamStep_finished w i accept h

theorem run_finished (w : World) (acts : List Action) (h : w.s.finished = true) :
    (run w acts).s.finished = true := by
  induction acts generalizing w with
  | nil => exact h
  | cons a as ih => exact ih (step w a) (step_finished w a h)

theorem PlaybackPosition_eq_wrap (s : StreamingSession) (frameDuration : Int) :
    (PlaybackPosition s frameDuration).2
      = wrapInt64 (s.framesSent * frameDuration * 1000000) := by
  simp only [PlaybackPosition, wrapInt64_mul_wrapInt64]

theorem PlaybackPosition_exact (s : StreamingSession) (frameDuration : Int)
    (hn : 0 ≤ s.framesSent) (hd : 0 ≤ frameDuration)
    (hlt : s.framesSent * frameDuration * 1000000 < 2 ^ 63) :
    (PlaybackPosition s frameDuration).2 = s.framesSent * frameDuration * 1000000 := by
  rw [PlaybackPosition_eq_wrap]
  have h0 : 0 ≤ s.framesSent * frameDuration * 1000000 :=
    Int.mul_nonneg (Int.mul_nonneg hn hd) (by decide)
  exact wrapInt64_of_range _ (by omega) hlt

theorem getElem?_set_of_some {α : Type} (l : List α) (i : Nat) (a b : α)
    (h : l[i]? = some a) : (l.set i b)[i]? = some b := by
  obtain ⟨hlt, _⟩ := List.getElem?_eq_some.mp h
  exact List.getElem?_set_self hlt

theorem streamStep_framesSent (w : World) (i : Nat) (accept : Bool) :
    (streamStep w i accept).s.framesSent =
      if w.tasks[i]? = some TaskState.counting then wrapInt64 (w.s.framesSent + 1)
      else w.s.framesSent := by
  unfold streamStep
  split
  all_goals rename_i h
  all_goals simp only [h]
  all_goals repeat' split
  all_goals simp_all

theorem step_framesSent_of_not_counting (w : World) (a : Action)
    (h : ∀ i accept, a = Action.task i accept → w.tasks[i]? ≠ some TaskState.counting) :
    (step w a).s.framesSent = w.s.framesSent := by
  cases a with
  | SetPaused v => simp [step, SetPaused_framesSent]
  | Paused => rfl
  | Finished => rfl
  | PlaybackPosition => rfl
  | task i accept =>
    have hi := h i accept rfl
    simp only [step, streamStep_framesSent, hi, if_false]

theorem step_framesSent_cases (w : World) (a : Action) :
    (step w a).s.framesSent = w.s.framesSent ∨
    (step w a).s.framesSent = wrapInt64 (w.s.framesSent + 1) := by
  by_cases h : ∀ i accept, a = Action.task i accept → w.tasks[i]? ≠ some TaskState.counting
  · exact Or.inl (step_framesSent_of_not_counting w a h)
  · right
    simp only [not_forall, not_not] at h
    obtain ⟨i, accept, ha, hi⟩ := h
    subst ha
    simp only [step, streamStep_framesSent, hi, if_true]

theorem streamStep_err_inv (w : World) (i : Nat) (accept : Bool)
    (h1 : w.s.err ≠ none → w.s.finished = true) (h2 : w.s.err ≠ some Error.EOF) :
    ((streamStep w i accept).s.err ≠ none → (streamStep w i accept).s.finished = true) ∧
    (streamStep w i accept).s.err ≠ some Error.EOF := by
  unfold streamStep
  split
  all_goals repeat' split
  all_goals simp_all

theorem step_err_inv (w : World) (a : Action)
    (h1 : w.s.err ≠ none → w.s.finished = true) (h2 : w.s.err ≠ some Error.EOF) :
    ((step w a).s.err ≠ none → (step w a).s.finished = true) ∧
    (step w a).s.err ≠ some Error.EOF := by
  cases a with
  | SetPaused v =>
    simp only [step, SetPaused_err, SetPaused_finished]
    exact ⟨h1, h2⟩
  | Paused => exact ⟨h1, h2⟩
  | Finished => exact ⟨h1, h2⟩
  | PlaybackPosition => exact ⟨h1, h2⟩
  | task i accept => exact streamStep_err_inv w i accept h1 h2

theorem run_err_inv (w : World) (acts : List Action)
    (h1 : w.s.err ≠ none → w.s.finished = true) (h2 : w.s.err ≠ some Error.EOF) :
    ((run w acts).s.err ≠ none → (run w acts).s.finished = true) ∧
    (run w acts).s.err ≠ some Error.EOF := by
  induction acts generalizing w with
  | nil => exact ⟨h1, h2⟩
  | cons a as ih =>
    exact ih (step w a) (step_err_inv w a h1 h2).1 (step_err_inv w a h1 h2).2

/-! ### Mutual exclusion -/

theorem getElem?_set_cases {α : Type} (l : List α) (i j : Nat) (b x : α)
    (h : (l.set i b)[j]? = some x) : (j = i ∧ x = b) ∨ (j ≠ i ∧ l[j]? = some x) := by
  by_cases hji : j = i
  · subst hji
    left
    rw [List.getElem?_set] at h
    simp only [if_true] at h
    split at h
    · exact ⟨rfl, (Option.some.inj h).symm⟩
    · exact absurd h (by simp)
  · right
    rw [List.getElem?_set_ne (fun hc => hji hc.symm)] at h
    exact ⟨hji, h⟩

theorem getElem?_append_singleton_cases {α : Type} (l : List α) (j : Nat) (b x : α)
    (h : (l ++ [b])[j]? = some x) : l[j]? = some x ∨ (j = l.length ∧ x = b) := by
  by_cases hj : j < l.length
  · left
    rwa [List.getElem?_append_left hj] at h
  · right
    rw [List.getElem?_append_right (by omega)] at h
    by_cases hj2 : j - l.length = 0
    · rw [hj2] at h
      simp only [List.getElem?_cons_zero, Option.some.injEq] at h
      exact ⟨by omega, h.symm⟩
    · obtain ⟨m, hm⟩ := Nat.exists_eq_succ_of_ne_zero hj2
      rw [hm] at h
      simp at h

theorem Exclusive_set_same (running : Bool) (tasks : List TaskState) (i : Nat)
    (t t2 : TaskState) (h : Exclusive running tasks) (hi : tasks[i]? = some t)
    (hsame : t2.inLoop = t.inLoop) : Exclusive running (tasks.set i t2) := by
  obtain ⟨h1, h2⟩ := h
  constructor
  · intro hr j x hx
    rcases getElem?_set_cases _ _ _ _ _ hx with ⟨_, hxe⟩ | ⟨_, hxo⟩
    · rw [hxe, hsame]
      exact h1 hr i t hi
    · exact h1 hr j x hxo
  · intro j k tj tk hj hk hjl hkl
    rcases getElem?_set_cases _ _ _ _ _ hj with ⟨hji, hje⟩ | ⟨hji, hjo⟩
    · rcases getElem?_set_cases _ _ _ _ _ hk with ⟨hki, _⟩ | ⟨hki, hko⟩
      · rw [hji, hki]
      · rw [hje, hsame] at hjl
        exact absurd (h2 i k t tk hi hko hjl hkl) (fun hc => hki hc.symm)
    · rcases getElem?_set_cases _ _ _ _ _ hk with ⟨hki, hke⟩ | ⟨_, hko⟩
      · rw [hke, hsame] at hkl
        exact absurd (h2 j i tj t hjo hi hjl hkl) hji
      · exact h2 j k tj tk hjo hko hjl hkl

theorem Exclusive_enter (tasks : List TaskState) (i : Nat) (t2 : TaskState)
    (h : Exclusive false tasks) : Exclusive true (tasks.set i t2) := by
  obtain ⟨h1, _⟩ := h
  constructor
  · intro hr
    exact absurd hr (by decide)
  · intro j k tj tk hj hk hjl hkl
    rcases getElem?_set_cases _ _ _ _ _ hj with ⟨hji, _⟩ | ⟨_, hjo⟩
    · rcases getElem?_set_cases _ _ _ _ _ hk with ⟨hki, _⟩ | ⟨_, hko⟩
      · rw [hji, hki]
      · rw [h1 rfl k tk hko] at hkl
        exact absurd hkl (by decide)
    · rw [h1 rfl j tj hjo] at hjl
      exact absurd hjl (by decide)

theorem Exclusive_others (running : Bool) (tasks : List TaskState) (i : Nat)
    (t : TaskState) (h : Exclusive running tasks) (hi : tasks[i]? = some t)
    (hl : t.inLoop = true) :
    running = true ∧
      ∀ (j : Nat) (x : TaskState), j ≠ i → tasks[j]? = some x → x.inLoop = false := by
  obtain ⟨h1, h2⟩ := h
  constructor
  · cases running with
    | true => rfl
    | false =>
      rw [h1 rfl i t hi] at hl
      exact absurd hl (by decide)
  · intro j x hji hx
    cases hxl : x.inLoop with
    | false => rfl
    | true => exact absurd (h2 j i x t hx hi hxl hl) hji

theorem Exclusive_exit (running : Bool) (tasks : List TaskState) (i : Nat)
    (t t2 : TaskState) (h : Exclusive running tasks) (hi : tasks[i]? = some t)
    (hl : t.inLoop = true) (hl2 : t2.inLoop = false) (running2 : Bool) :
    Exclusive running2 (tasks.set i t2) := by
  obtain ⟨_, ho⟩ := Exclusive_others running tasks i t h hi hl
  have hall : ∀ (j : Nat) (x : TaskState), (tasks.set i t2)[j]? = some x →
      x.inLoop = false := by
    intro j x hx
    rcases getElem?_set_cases _ _ _ _ _ hx with ⟨_, hxe⟩ | ⟨hji, hxo⟩
    · rw [hxe]; exact hl2
    · exact ho j x hji hxo
  constructor
  · intro _
    exact hall
  · intro j k tj tk hj _ hjl _
    rw [hall j tj hj] at hjl
    exact absurd hjl (by decide)

theorem Exclusive_append (running : Bool) (tasks : List TaskState) (t : TaskState)
    (h : Exclusive running tasks) (hl : t.inLoop = false) :
    Exclusive running (tasks ++ [t]) := by
  obtain ⟨h1, h2⟩ := h
  constructor
  · intro hr j x hx
    rcases getElem?_append_singleton_cases _ _ _ _ hx with hxo | ⟨_, hxe⟩
    · exact h1 hr j x hxo
    · rw [hxe]; exact hl
  · intro j k tj tk hj hk hjl hkl
    rcases getElem?_append_singleton_cases _ _ _ _ hj with hjo | ⟨_, hje⟩
    · rcases getElem?_append_singleton_cases _ _ _ _ hk with hko | ⟨_, hke⟩
      · exact h2 j k tj tk hjo hko hjl hkl
      · rw [hke, hl] at hkl
        exact absurd hkl (by decide)
    · rw [hje, hl] at hjl
      exact absurd hjl (by decide)

theorem streamStep_Exclusive (w : World) (i : Nat) (accept : Bool)
    (h : Exclusive w.s.running w.tasks) :
    Exclusive (streamStep w i accept).s.running (streamStep w i accept).tasks := by
  cases hti : w.tasks[i]? with
  | none => simpa [streamStep, hti] using h
  | some t =>
    cases t with
    | spawned =>
      simp only [streamStep, hti]
      cases hr : w.s.running with
      | true =>
        simp only [if_true]
        exact Exclusive_set_same _ _ i _ _ h hti rfl
      | false =>
        simp only [Bool.false_eq_true, if_false]
        rw [hr] at h
        exact Exclusive_enter _ i _ h
    | loopTop =>
      simp only [streamStep, hti]
      split
      · exact Exclusive_set_same _ _ i _ _ h hti rfl
      · exact Exclusive_set_same _ _ i _ _ h hti rfl
    | decoding =>
      simp only [streamStep, hti]
      split
      · exact Exclusive_set_same _ _ i _ _ h hti rfl
      · exact Exclusive_set_same _ _ i _ _ h hti rfl
      · exact Exclusive_exit _ _ i _ TaskState.panicked h hti rfl rfl _
    | sending opus =>
      simp only [streamStep, hti]
      split
      · exact Exclusive_set_same _ _ i _ _ h hti rfl
      · exact Exclusive_set_same _ _ i _ _ h hti rfl
    | counting =>
      simp only [streamStep, hti]
      exact Exclusive_set_same _ _ i _ _ h hti rfl
    | failed err =>
      simp only [streamStep, hti]
      exact Exclusive_set_same _ _ i _ _ h hti rfl
    | exiting =>
      simp only [streamStep, hti]
      exact Exclusive_exit _ _ i _ TaskState.done h hti rfl rfl _
    | done => simpa [streamStep, hti] using h
    | panicked => simpa [streamStep, hti] using h

theorem step_Exclusive (w : World) (a : Action) (h : Exclusive w.s.running w.tasks) :
    Exclusive (step w a).s.running (step w a).tasks := by
  cases a with
  | SetPaused v =>
    simp only [step, SetPaused_running]
    split
    · exact Exclusive_append _ _ _ h rfl
    · exact h
  | Paused => exact h
  | Finished => exact h
  | PlaybackPosition => exact h
  | task i accept => exact streamStep_Exclusive w i accept h

theorem run_Exclusive (w : World) (acts : List Action)
    (h : Exclusive w.s.running w.tasks) :
    Exclusive (run w acts).s.running (run w acts).tasks := by
  induction acts generalizing w with
  | nil => exact h
  | cons a as ih => exact ih (step w a) (step_Exclusive w a h)

theorem StreamFromEncodeSession_Exclusive (e : EncodeSession) :
    Exclusive (StreamFromEncodeSession e).s.running (StreamFromEncodeSession e).tasks := by
  constructor
  · intro _ j t ht
    cases j with
    | zero =>
      simp only [StreamFromEncodeSession, List.getElem?_cons_zero, Option.some.injEq] at ht
      rw [← ht]; rfl
    | succ j => simp [StreamFromEncodeSession] at ht
  · intro j k tj tk hj _ hjl _
    cases j with
    | zero =>
      simp only [StreamFromEncodeSession, List.getElem?_cons_zero, Option.some.injEq] at hj
      rw [← hj] at hjl
      exact absurd hjl (by decide)
    | succ j => simp [StreamFromEncodeSession] at hj

/-! ### After a sink timeout -/

theorem forall_getElem?_set {α : Type} (Q : α → Prop) (l : List α) (i : Nat) (b : α)
    (h : ∀ (j : Nat) (x : α), l[j]? = some x → Q x) (hb : Q b) :
    ∀ (j : Nat) (x : α), (l.set i b)[j]? = some x → Q x := by
  intro j x hx
  rcases getElem?_set_cases _ _ _ _ _ hx with ⟨_, hxe⟩ | ⟨_, hxo⟩
  · rw [hxe]; exact hb
  · exact h j x hxo

theorem Reader_eq_of_rest_nil (r : Reader) (h : r.rest = []) : r = ⟨[]⟩ := by
  cases r
  simp only at h
  rw [h]

theorem quiet_of_not_inLoop (t : TaskState) (h : t.inLoop = false) :
    (∀ opus, t ≠ TaskState.sending opus) ∧ t ≠ TaskState.counting ∧
    (∀ err, t = TaskState.failed err → err = Error.EOF) := by
  cases t <;> simp [TaskState.inLoop] at h ⊢

theorem streamStep_Halted (sent0 : List (List UInt8)) (n0 : Int) (i : Nat) (w : World)
    (j : Nat) (accept : Bool) (h : Halted sent0 n0 i w) :
    Halted sent0 n0 i (streamStep w j accept) := by
  obtain ⟨hsent, hn, hphase⟩ := h
  rcases hphase with ⟨hti, hrun, hothers⟩ | ⟨hfin, herr, hrest, hquiet⟩
  · -- the task `i` still holds the error
    by_cases hji : j = i
    · subst hji
      refine ⟨?_, ?_, Or.inr ⟨?_, ?_, ?_, ?_⟩⟩
      · simpa [streamStep, hti] using hsent
      · simpa [streamStep, hti] using hn
      · simp [streamStep, hti]
      · simp [streamStep, hti]
      · simp [streamStep, hti, EncodeSession.Truncate]
      · simp only [streamStep, hti]
        intro k t hk
        rcases getElem?_set_cases _ _ _ _ _ hk with ⟨_, hke⟩ | ⟨hkj, hko⟩
        · rw [hke]; simp
        · exact quiet_of_not_inLoop t (hothers k t hkj hko)
    · cases htj : w.tasks[j]? with
      | none => exact ⟨by simpa [streamStep, htj] using hsent,
          by simpa [streamStep, htj] using hn,
          Or.inl (by simpa [streamStep, htj] using ⟨hti, hrun, hothers⟩)⟩
      | some t =>
        have hl := hothers j t hji htj
        cases t with
        | spawned =>
          refine ⟨by simpa [streamStep, htj, hrun] using hsent,
            by simpa [streamStep, htj, hrun] using hn, Or.inl ⟨?_, ?_, ?_⟩⟩
          · simp only [streamStep, htj, hrun, if_true]
            rw [List.getElem?_set_ne hji]
            exact hti
          · simp [streamStep, htj, hrun]
          · simp only [streamStep, htj, hrun, if_true]
            intro k x hki hk
            rcases getElem?_set_cases _ _ _ _ _ hk with ⟨_, hke⟩ | ⟨_, hko⟩
            · rw [hke]; rfl
            · exact hothers k x hki hko
        | done => exact ⟨by simpa [streamStep, htj] using hsent,
            by simpa [streamStep, htj] using hn,
            Or.inl (by simpa [streamStep, htj] using ⟨hti, hrun, hothers⟩)⟩
        | panicked => exact ⟨by simpa [streamStep, htj] using hsent,
            by simpa [streamStep, htj] using hn,
            Or.inl (by simpa [streamStep, htj] using ⟨hti, hrun, hothers⟩)⟩
        | loopTop => exact absurd hl (by decide)
        | decoding => exact absurd hl (by decide)
        | sending opus => exact absurd hl (by simp [TaskState.inLoop])
        | counting => exact absurd hl (by decide)
        | failed err => exact absurd hl (by simp [TaskState.inLoop])
        | exiting => exact absurd hl (by decide)
  · -- the error is recorded
    cases htj : w.tasks[j]? with
    | none => exact ⟨by simpa [streamStep, htj] using hsent,
        by simpa [streamStep, htj] using hn,
        Or.inr (by simpa [streamStep, htj] using ⟨hfin, herr, hrest, hquiet⟩)⟩
    | some t =>
      have hq := hquiet j t htj
      cases t with
      | spawned =>
        simp only [streamStep, htj]
        split
        · exact ⟨hsent, hn, Or.inr ⟨hfin, herr, hrest,
            forall_getElem?_set _ _ _ _ hquiet (by simp)⟩⟩
        · exact ⟨hsent, hn, Or.inr ⟨hfin, herr, hrest,
            forall_getElem?_set _ _ _ _ hquiet (by simp)⟩⟩
      | loopTop =>
        simp only [streamStep, htj]
        split
        · exact ⟨hsent, hn, Or.inr ⟨hfin, herr, hrest,
            forall_getElem?_set _ _ _ _ hquiet (by simp)⟩⟩
        · exact ⟨hsent, hn, Or.inr ⟨hfin, herr, hrest,
            forall_getElem?_set _ _ _ _ hquiet (by simp)⟩⟩
      | decoding =>
        simp only [streamStep, htj, Reader_eq_of_rest_nil _ hrest, DecodeFrame_nil]
        exact ⟨hsent, hn, Or.inr ⟨hfin, herr, rfl,
          forall_getElem?_set _ _ _ _ hquiet (by simp)⟩⟩
      | sending opus => exact absurd rfl (hq.1 opus)
      | counting => exact absurd rfl hq.2.1
      | failed err =>
        have he := hq.2.2 err rfl
        subst he
        simp only [streamStep, htj]
        exact ⟨hsent, hn, Or.inr ⟨rfl, by simp [herr], rfl,
          forall_getElem?_set _ _ _ _ hquiet (by simp)⟩⟩
      | exiting =>
        simp only [streamStep, htj]
        exact ⟨hsent, hn, Or.inr ⟨hfin, herr, hrest,
          forall_getElem?_set _ _ _ _ hquiet (by simp)⟩⟩
      | done => exact ⟨by simpa [streamStep, htj] using hsent,
          by simpa [streamStep, htj] using hn,
          Or.inr (by simpa [streamStep, htj] using ⟨hfin, herr, hrest, hquiet⟩)⟩
      | panicked => exact ⟨by simpa [streamStep, htj] using hsent,
          by simpa [streamStep, htj] using hn,
          Or.inr (by simpa [streamStep, htj] using ⟨hfin, herr, hrest, hquiet⟩)⟩

theorem step_Halted (sent0 : List (List UInt8)) (n0 : Int) (i : Nat) (w : World)
    (a : Action) (h : Halted sent0 n0 i w) : Halted sent0 n0 i (step w a) := by
  cases a with
  | task j accept => exact streamStep_Halted sent0 n0 i w j accept h
  | Paused => exact h
  | Finished => exact h
  | PlaybackPosition => exact h
  | SetPaused v =>
    obtain ⟨hsent, hn, hphase⟩ := h
    rcases hphase with ⟨hti, hrun, hothers⟩ | ⟨hfin, herr, hrest, hquiet⟩
    · refine ⟨hsent, ?_, Or.inl ⟨?_, ?_, ?_⟩⟩
      · simpa [step, SetPaused_framesSent] using hn
      · simp only [step]
        split
        · obtain ⟨hlt, _⟩ := List.getElem?_eq_some.mp hti
          rw [List.getElem?_append_left hlt]
          exact hti
        · exact hti
      · simpa [step, SetPaused_running] using hrun
      · simp only [step]
        split
        · intro k x hki hk
          rcases getElem?_append_singleton_cases _ _ _ _ hk with hko | ⟨_, hke⟩
          · exact hothers k x hki hko
          · rw [hke]; rfl
        · exact hothers
    · have hno : SetPaused w.s v = (w.s, false) := by simp [SetPaused, hfin]
      simp only [step, hno]
      exact ⟨hsent, hn, Or.inr ⟨hfin, herr, hrest, hquiet⟩⟩

theorem run_Halted (sent0 : List (List UInt8)) (n0 : Int) (i : Nat) (w : World)
    (acts : List Action) (h : Halted sent0 n0 i w) : Halted sent0 n0 i (run w acts) := by
  induction acts generalizing w with
  | nil => exact h
  | cons a as ih => exact ih (step w a) (step_Halted sent0 n0 i w a h)

/-- From a state with mutual exclusion in which the task `i` holds a frame,
the sink's timeout leaves the session halted. -/
theorem Halted_of_timeout (w : World) (i : Nat) (opus : List UInt8)
    (hex : Exclusive w.s.running w.tasks)
    (hi : w.tasks[i]? = some (TaskState.sending opus)) :
    Halted w.sent w.s.framesSent i (step w (Action.task i false)) := by
  obtain ⟨hrun, hothers⟩ := Exclusive_others _ _ i _ hex hi rfl
  refine ⟨?_, ?_, Or.inl ⟨?_, ?_, ?_⟩⟩
  · simp [step, streamStep, hi]
  · simp [step, streamStep, hi]
  · simp only [step, streamStep, hi, Bool.false_eq_true, if_false]
    exact getElem?_set_of_some _ _ _ _ hi
  · simpa [step, streamStep, hi] using hrun
  · simp only [step, streamStep, hi, Bool.false_eq_true, if_false]
    intro k x hki hk
    rcases getElem?_set_cases _ _ _ _ _ hk with ⟨hke, _⟩ | ⟨_, hko⟩
    · exact absurd hke hki
    · exact hothers k x hki hko

/-! ### Frames in order -/

/-- The formula of `Aligned` for a task that holds neither a frame nor an
error is the one for no task. -/
theorem Aligned_plain (fs : List (List UInt8)) (w : World) (t : TaskState)
    (h1 : ∀ opus, t ≠ TaskState.sending opus) (h2 : t ≠ TaskState.counting)
    (h3 : ∀ err, t ≠ TaskState.failed err) :
    Aligned fs w (some t) ↔ Aligned fs w none := by
  cases t with
  | sending opus => exact absurd rfl (h1 opus)
  | counting => exact absurd rfl h2
  | failed err => exact absurd rfl (h3 err)
  | spawned => simp only [Aligned]
  | loopTop => simp only [Aligned]
  | decoding => simp only [Aligned]
  | exiting => simp only [Aligned]
  | done => simp only [Aligned]
  | panicked => simp only [Aligned]

end SessionLemmas

/-! ## The claims -/

section Claims

variable {M : Type}

/-- C1. Round-trip framing: on a container built as `"DCA"`, a version digit,
the `int32` length of the metadata `m`, `m` itself (accepted by the JSON
decoding) and the frames `int16 (len p) ++ p` of any payloads `ps` whose
lengths fit an `int16`, `ReadMetadata` on a fresh decoder succeeds and stores
the version and the metadata; the next `ps.length` calls of `OpusFrame` return
the payloads, byte for byte and in order, and the call after them returns
end-of-stream. -/
theorem C1_round_trip_framing (u : List UInt8 → Option M × Option JSONError)
    (version : Nat) (m : List UInt8) (md : Option M) (ps : List (List UInt8))
    (hv : version ≤ 9) (hm : m.length < 2 ^ 31) (hu : u m = (md, none))
    (hps : ∀ p ∈ ps, p.length < 2 ^ 15) :
    (ReadMetadata u (NewDecoder (encodeContainer version m ps))).2 = Result.ok () ∧
    (ReadMetadata u (NewDecoder (encodeContainer version m ps))).1.FormatVersion
      = (version : Int) ∧
    (ReadMetadata u (NewDecoder (encodeContainer version m ps))).1.Metadata = md ∧
    (opusFrames u (ps.length + 1)
        (ReadMetadata u (NewDecoder (encodeContainer version m ps))).1).1
      = ps.map Result.ok ++ [Result.err Error.EOF] := by
  rw [ReadMetadata_encodeContainer u version m md ps hv hm hu]
  refine ⟨rfl, rfl, rfl, ?_⟩
  rw [opusFrames_of_processed u _ _ rfl]
  simp only [decodeFrames_encodeFrames ps hps]

/-- Witness of C1: the container `"DCA1"`, `int32 2`, `{}`, `int16 3`, `01 02 03`. -/
theorem C1_round_trip_framing_witness :
    (ReadMetadata unmarshalSample
        (NewDecoder (encodeContainer 1 [123, 125] [[1, 2, 3]]))).2 = Result.ok () ∧
    (ReadMetadata unmarshalSample
        (NewDecoder (encodeContainer 1 [123, 125] [[1, 2, 3]]))).1.FormatVersion
      = ((1 : Nat) : Int) ∧
    (ReadMetadata unmarshalSample
        (NewDecoder (encodeContainer 1 [123, 125] [[1, 2, 3]]))).1.Metadata
      = some [123, 125] ∧
    (opusFrames unmarshalSample ([[1, 2, 3]].length + 1)
        (ReadMetadata unmarshalSample
          (NewDecoder (encodeContainer 1 [123, 125] [[1, 2, 3]]))).1).1
      = [[1, 2, 3]].map Result.ok ++ [Result.err Error.EOF] :=
  C1_round_trip_framing unmarshalSample 1 [123, 125] (some [123, 125]) [[1, 2, 3]]
    (by decide) (by decide) (by decide) (by decide)

/-- C3. A second `ReadMetadata` call on the same decoder returns
`ErrNotFirstFrame`, whatever the first call did, and leaves the decoder as
the first call left it: no byte is consumed, `FormatVersion` and `Metadata`
are unchanged. -/
theorem C3_second_ReadMetadata (u : List UInt8 → Option M × Option JSONError)
    (d : Decoder M) :
    ReadMetadata u (ReadMetadata u d).1 =
      ((ReadMetadata u d).1, Result.err Error.ErrNotFirstFrame) :=
  ReadMetadata_of_processed u _ (ReadMetadata_sets_processed u d)

/-- C4, evaluated. On the headerless stream `02 00 AA BB 01 00 CC` the first
`OpusFrame` call returns the frame `AA BB` and leaves `firstFrameProcessed`
false, so a `ReadMetadata` call after it reads the stream and returns
`ErrNotDCA`, not `ErrNotFirstFrame`; and on `02 00 AA BB 44 43 41 78` the
second `OpusFrame` call finds `"DCA"`, parses a header and returns the parse
error of the version byte. -/
theorem C4_header_decision_repeats :
    (OpusFrame unmarshalSample (NewDecoder [2, 0, 170, 187, 1, 0, 204])).2
      = Result.ok [170, 187] ∧
    (OpusFrame unmarshalSample (NewDecoder [2, 0, 170, 187, 1, 0, 204])).1.firstFrameProcessed
      = false ∧
    (ReadMetadata unmarshalSample
        (OpusFrame unmarshalSample (NewDecoder [2, 0, 170, 187, 1, 0, 204])).1).2
      = Result.err Error.ErrNotDCA ∧
    (opusFrames unmarshalSample 2 (NewDecoder [2, 0, 170, 187, 68, 67, 65, 120])).1
      = [Result.ok [170, 187], Result.err (Error.NumError [120] NumErrKind.ErrSyntax)] := by
  decide

/-- C5. On a stream that begins with `"DCA"`, the first `OpusFrame` call on a
fresh decoder is `ReadMetadata` followed by `DecodeFrame`: the same decoder
state (`FormatVersion`, `Metadata`, stream position) and the same result; when
`ReadMetadata` fails, its error is the result and no frame is decoded. -/
theorem C5_OpusFrame_reads_header (u : List UInt8 → Option M × Option JSONError)
    (bs : List UInt8) (hm : bs.take 3 = magicDCA) :
    OpusFrame u (NewDecoder bs) = readMetadataThenDecodeFrame u (NewDecoder bs) ∧
    (∀ e, (ReadMetadata u (NewDecoder bs)).2 = Result.err e →
      OpusFrame u (NewDecoder bs) = ((ReadMetadata u (NewDecoder bs)).1, Result.err e)) ∧
    ((ReadMetadata u (NewDecoder bs)).2 = Result.ok () →
      (OpusFrame u (NewDecoder bs)).2 = (DecodeFrame (ReadMetadata u (NewDecoder bs)).1.r).1 ∧
      (OpusFrame u (NewDecoder bs)).1.r = (DecodeFrame (ReadMetadata u (NewDecoder bs)).1.r).2 ∧
      (OpusFrame u (NewDecoder bs)).1.FormatVersion
        = (ReadMetadata u (NewDecoder bs)).1.FormatVersion ∧
      (OpusFrame u (NewDecoder bs)).1.Metadata
        = (ReadMetadata u (NewDecoder bs)).1.Metadata) := by
  rw [OpusFrame_of_magic u (NewDecoder bs) rfl hm]
  refine ⟨rfl, ?_, ?_⟩
  · intro e he
    unfold readMetadataThenDecodeFrame
    rcases hres : ReadMetadata u (NewDecoder bs) with ⟨d1, res⟩
    rw [hres] at he
    simp only at he
    subst he
    rfl
  · intro hok
    unfold readMetadataThenDecodeFrame
    rcases hres : ReadMetadata u (NewDecoder bs) with ⟨d1, res⟩
    rw [hres] at hok
    simp only at hok
    subst hok
    exact ⟨rfl, rfl, rfl, rfl⟩

/-- Witness of C5: the container `"DCA1"`, `int32 2`, `{}`, `int16 3`, `01 02 03`. -/
theorem C5_OpusFrame_reads_header_witness :
    (encodeContainer 1 [123, 125] [[1, 2, 3]]).take 3 = magicDCA ∧
    OpusFrame unmarshalSample (NewDecoder (encodeContainer 1 [123, 125] [[1, 2, 3]]))
      = ({ Metadata := some [123, 125], FormatVersion := 1, r := ⟨[]⟩,
            firstFrameProcessed := true }, Result.ok [1, 2, 3]) ∧
    OpusFrame unmarshalSample (NewDecoder (encodeContainer 1 [123, 125] [[1, 2, 3]]))
      = readMetadataThenDecodeFrame unmarshalSample
          (NewDecoder (encodeContainer 1 [123, 125] [[1, 2, 3]])) :=
  ⟨by decide, by decide,
    (C5_OpusFrame_reads_header unmarshalSample (encodeContainer 1 [123, 125] [[1, 2, 3]])
      (by decide)).1⟩

/-- C6, as stated, fails: on the bare stream `02 00 AA BB 01 00 CC` (frames
`AA BB` and `CC`) `ReadMetadata` returns `ErrNotDCA`, and the `OpusFrame`
call after it returns `CC`, the frame at offset 4, while the stream's first
frame, decoded from offset 0, is `AA BB`. -/
theorem C6_not_dca_counterexample :
    ([2, 0, 170, 187, 1, 0, 204] : List UInt8).take 3 ≠ magicDCA ∧
    (ReadMetadata unmarshalSample (NewDecoder [2, 0, 170, 187, 1, 0, 204])).2
      = Result.err Error.ErrNotDCA ∧
    (opusFrames unmarshalSample 1
        (ReadMetadata unmarshalSample (NewDecoder [2, 0, 170, 187, 1, 0, 204])).1).1
      = [Result.ok [204]] ∧
    (decodeFrames 1 ⟨[2, 0, 170, 187, 1, 0, 204]⟩).1 = [Result.ok [170, 187]] := by
  decide

/-- C6, amended. On a non-empty stream that does not begin with `"DCA"`,
`ReadMetadata` on a fresh decoder returns `ErrNotDCA` after consuming the four
fingerprint bytes; the decoder stays usable, and the `OpusFrame` calls that
follow return exactly what successive `DecodeFrame` calls return on the bytes
from offset 4 on, with `FormatVersion` and `Metadata` left at their defaults. -/
theorem C6_not_dca_then_frames (u : List UInt8 → Option M × Option JSONError)
    (bs : List UInt8) (hne : bs ≠ []) (hm : bs.take 3 ≠ magicDCA) :
    (ReadMetadata u (NewDecoder bs)).2 = Result.err Error.ErrNotDCA ∧
    (ReadMetadata u (NewDecoder bs)).1.r = ⟨bs.drop 4⟩ ∧
    ∀ n, (opusFrames u n (ReadMetadata u (NewDecoder bs)).1).1
          = (decodeFrames n ⟨bs.drop 4⟩).1 ∧
        (opusFrames u n (ReadMetadata u (NewDecoder bs)).1).2.r
          = (decodeFrames n ⟨bs.drop 4⟩).2 ∧
        (opusFrames u n (ReadMetadata u (NewDecoder bs)).1).2.FormatVersion = 0 ∧
        (opusFrames u n (ReadMetadata u (NewDecoder bs)).1).2.Metadata = none := by
  rw [ReadMetadata_not_dca u (NewDecoder bs) rfl hne hm]
  refine ⟨rfl, rfl, fun n => ?_⟩
  rw [opusFrames_of_processed u n _ rfl]
  exact ⟨rfl, rfl, rfl, rfl⟩

/-- Witness of C6 amended: the bare stream `02 00 AA BB 01 00 CC`. -/
theorem C6_not_dca_then_frames_witness :
    (ReadMetadata unmarshalSample (NewDecoder [2, 0, 170, 187, 1, 0, 204])).2
      = Result.err Error.ErrNotDCA ∧
    (opusFrames unmarshalSample 2
        (ReadMetadata unmarshalSample (NewDecoder [2, 0, 170, 187, 1, 0, 204])).1).1
      = (decodeFrames 2 ⟨[1, 0, 204]⟩).1 :=
  ⟨(C6_not_dca_then_frames unmarshalSample [2, 0, 170, 187, 1, 0, 204]
      (by decide) (by decide)).1,
    ((C6_not_dca_then_frames unmarshalSample [2, 0, 170, 187, 1, 0, 204]
      (by decide) (by decide)).2.2 2).1⟩

/-- C7, evaluated. On `"DCA1"` followed by the metadata length `FF FF FF FF`
(the `int32` value -1), `ReadMetadata` does not return: the allocation
`make([]byte, metaLen)` panics. -/
theorem C7_negative_length_panics (u : List UInt8 → Option M × Option JSONError)
    (rest : List UInt8) :
    (ReadMetadata u
      (NewDecoder ([68, 67, 65, 49, 255, 255, 255, 255] ++ rest))).2 = Result.panic := by
  have hr : (NewDecoder ([68, 67, 65, 49, 255, 255, 255, 255] ++ rest) : Decoder M).r.rest =
      magicDCA ++ 49 :: ([255, 255, 255, 255] ++ rest) := rfl
  rw [ReadMetadata_header u _ 49 _ rfl hr (by decide),
    ReadFull_append_of_length [255, 255, 255, 255] rest 4 rfl]
  have hneg : leSigned 4 [255, 255, 255, 255] < 0 := by decide
  simp only [hneg, if_true]

/-- C8. Format version parsing: on a decoder that has made no call yet
(`firstFrameProcessed` false, its public fields at any values) over a stream
that begins with `"DCA"` and a byte `c`, `ReadMetadata` gets past the version
step exactly when `c` is an ASCII digit, and then `FormatVersion` is
`c - '0'`, between 0 and 9; for any other `c` it returns the parse error of
`strconv.ParseInt` and leaves `FormatVersion` and `Metadata` unchanged. -/
theorem C8_format_version (u : List UInt8 → Option M × Option JSONError) (d : Decoder M)
    (c : UInt8) (rest : List UInt8) (hf : d.firstFrameProcessed = false)
    (hr : d.r.rest = magicDCA ++ c :: rest) :
    ((48 ≤ c.toNat ∧ c.toNat ≤ 57) →
      (ReadMetadata u d).1.FormatVersion = (c.toNat : Int) - 48 ∧
      0 ≤ (ReadMetadata u d).1.FormatVersion ∧ (ReadMetadata u d).1.FormatVersion ≤ 9 ∧
      ∀ num kind, (ReadMetadata u d).2 ≠ Result.err (Error.NumError num kind)) ∧
    (¬ (48 ≤ c.toNat ∧ c.toNat ≤ 57) →
      (ReadMetadata u d).2 = Result.err (Error.NumError [c] NumErrKind.ErrSyntax) ∧
      (ReadMetadata u d).1.FormatVersion = d.FormatVersion ∧
      (ReadMetadata u d).1.Metadata = d.Metadata) := by
  constructor
  · intro hd
    obtain ⟨h1, h2⟩ := ReadMetadata_digit u d c rest hf hr hd
    refine ⟨h1, ?_, ?_, h2⟩
    · rw [h1]; omega
    · rw [h1]; omega
  · intro hd
    rw [(ReadMetadata_four u d 68 67 65 c rest hf hr).2 rfl hd]
    exact ⟨rfl, rfl, rfl⟩

/-- Witness of C8: the version bytes `'7'` and `'+'` on a fresh decoder. -/
theorem C8_format_version_witness :
    (ReadMetadata unmarshalSample (NewDecoder (magicDCA ++ 55 :: []))).1.FormatVersion
      = ((55 : UInt8).toNat : Int) - 48 ∧
    (ReadMetadata unmarshalSample (NewDecoder (magicDCA ++ 43 :: []))).2
      = Result.err (Error.NumError [43] NumErrKind.ErrSyntax) ∧
    (ReadMetadata unmarshalSample (NewDecoder (magicDCA ++ 43 :: []))).1.FormatVersion
      = (NewDecoder (magicDCA ++ 43 :: []) : Decoder (List UInt8)).FormatVersion :=
  ⟨((C8_format_version unmarshalSample (NewDecoder (magicDCA ++ 55 :: [])) 55 [] rfl rfl).1
      (by decide)).1,
    ((C8_format_version unmarshalSample (NewDecoder (magicDCA ++ 43 :: [])) 43 [] rfl rfl).2
      (by decide)).1,
    ((C8_format_version unmarshalSample (NewDecoder (magicDCA ++ 43 :: [])) 43 [] rfl rfl).2
      (by decide)).2.1⟩

/-- C9. On a decoder that has made no call yet (`firstFrameProcessed` false,
its public fields at any values) over a stream of at least four bytes of
which the first three are not `"DCA"`, `ReadMetadata` fails with `ErrNotDCA`
and leaves `FormatVersion` and `Metadata` at their previous values. -/
theorem C9_not_dca (u : List UInt8 → Option M × Option JSONError) (d : Decoder M)
    (hf : d.firstFrameProcessed = false) (hlen : 4 ≤ d.r.rest.length)
    (hm : d.r.rest.take 3 ≠ magicDCA) :
    (ReadMetadata u d).2 = Result.err Error.ErrNotDCA ∧
    (ReadMetadata u d).1.FormatVersion = d.FormatVersion ∧
    (ReadMetadata u d).1.Metadata = d.Metadata := by
  have hne : d.r.rest ≠ [] := by
    intro h
    rw [h] at hlen
    simp at hlen
  rw [ReadMetadata_not_dca u d hf hne hm]
  exact ⟨rfl, rfl, rfl⟩

/-- Witness of C9: the bare stream `02 00 AA BB` on a fresh decoder. -/
theorem C9_not_dca_witness :
    (ReadMetadata unmarshalSample (NewDecoder [2, 0, 170, 187])).2
      = Result.err Error.ErrNotDCA ∧
    (ReadMetadata unmarshalSample (NewDecoder [2, 0, 170, 187])).1.FormatVersion
      = (NewDecoder [2, 0, 170, 187] : Decoder (List UInt8)).FormatVersion ∧
    (ReadMetadata unmarshalSample (NewDecoder [2, 0, 170, 187])).1.Metadata
      = (NewDecoder [2, 0, 170, 187] : Decoder (List UInt8)).Metadata :=
  C9_not_dca unmarshalSample (NewDecoder [2, 0, 170, 187]) rfl (by decide) (by decide)

/-- C10. `SetPaused` is a no-op on a finished session: it leaves `paused`,
`running`, `finished`, `err` and `framesSent` unchanged and starts no delivery
task. -/
theorem C10_SetPaused_finished (s : StreamingSession) (v : Bool)
    (h : s.finished = true) : SetPaused s v = (s, false) := by
  simp [SetPaused, h]

/-- Witness of C10: resuming a finished session that was paused and not running. -/
theorem C10_SetPaused_finished_witness :
    SetPaused { paused := true, framesSent := 5, finished := true, running := false,
                err := some Error.ErrVoiceConnClosed } false
      = ({ paused := true, framesSent := 5, finished := true, running := false,
           err := some Error.ErrVoiceConnClosed }, false) :=
  C10_SetPaused_finished _ false rfl

/-- C11. `SetPaused` records the requested flag: on a session that is not
finished, after `SetPaused v` the pause flag is `v` (and `Paused` returns
`v`), while `running`, `finished`, `err` and `framesSent` are as before. -/
theorem C11_SetPaused_records (s : StreamingSession) (v : Bool)
    (h : s.finished = false) :
    (SetPaused s v).1 = { s with paused := v } ∧
    (Paused (SetPaused s v).1).2 = v ∧
    (SetPaused s v).1.running = s.running ∧
    (SetPaused s v).1.finished = s.finished ∧
    (SetPaused s v).1.err = s.err ∧
    (SetPaused s v).1.framesSent = s.framesSent := by
  have h1 : (SetPaused s v).1 = { s with paused := v } := by
    cases s with
    | mk p n fin r e =>
      simp only at h
      subst h
      cases p <;> cases r <;> cases v <;> rfl
  rw [h1]
  exact ⟨rfl, rfl, rfl, rfl, rfl, rfl⟩

/-- Witness of C11: pausing a running session. -/
theorem C11_SetPaused_records_witness :
    (SetPaused { paused := false, framesSent := 3, finished := false, running := true,
                 err := none } true).1
      = { paused := true, framesSent := 3, finished := false, running := true,
          err := none } :=
  (C11_SetPaused_records _ true rfl).1

/-- C12. `SetPaused v` executes `go s.stream()` exactly when, at the call, the
session is not finished, no task is running, the pause flag is set and `v` is
false. -/
theorem C12_SetPaused_spawns (s : StreamingSession) (v : Bool) :
    (SetPaused s v).2 = true ↔
      (s.finished = false ∧ s.running = false ∧ s.paused = true ∧ v = false) := by
  cases s with
  | mk p n fin r e =>
    cases p <;> cases fin <;> cases r <;> cases v <;> simp [SetPaused]

/-- C13, evaluated. From `StreamFromEncodeSession`, the calls `SetPaused(true)`
and `SetPaused(false)` made before the first task has started leave two
tasks waiting to start: the first one to run sets `running`, and the second
finds `running` true at the start of `stream` and panics. -/
theorem C13_double_start_reachable (e : EncodeSession) :
    (run (StreamFromEncodeSession e)
        [Action.SetPaused true, Action.SetPaused false]).tasks
      = [TaskState.spawned, TaskState.spawned] ∧
    (run (StreamFromEncodeSession e)
        [Action.SetPaused true, Action.SetPaused false,
          Action.task 0 true]).s.running = true ∧
    (run (StreamFromEncodeSession e)
        [Action.SetPaused true, Action.SetPaused false,
          Action.task 0 true, Action.task 1 true]).tasks
      = [TaskState.loopTop, TaskState.panicked] :=
  ⟨rfl, rfl, rfl⟩

/-- C14. `finished` is terminal: once it is true, no method call and no step
of a delivery task sets it back to false, after one action and after any
schedule. -/
theorem C14_finished_terminal (w : World) (h : w.s.finished = true) :
    (∀ a : Action, (step w a).s.finished = true) ∧
    (∀ acts : List Action, (run w acts).s.finished = true) :=
  ⟨fun a => step_finished w a h, fun acts => run_finished w acts h⟩

/-- Witness of C14: a finished session, resumed and with a task left to start. -/
theorem C14_finished_terminal_witness :
    (run { s := { paused := true, framesSent := 2, finished := true, running := false,
                  err := none },
           e := { r := ⟨[1, 0, 7]⟩, FrameDuration := 20, truncateCalls := 1 },
           sent := [[1], [2]], tasks := [TaskState.done, TaskState.spawned] }
        [Action.SetPaused false, Action.task 1 true, Action.task 1 true]).s.finished
      = true :=
  (C14_finished_terminal _ rfl).2 _

/-- C15, as stated, fails at the ends of the integer ranges.  With
`FrameDuration = 20`, the handoff that takes `framesSent` from 461168601842
to 461168601843 takes `PlaybackPosition` from 9223372036840000000 ns to a
negative value, the product no longer fitting an `int64`; and at the largest
`int` the increment `framesSent++` wraps around to the smallest. -/
theorem C15_framesSent_counterexample :
    (step { s := { paused := false, framesSent := 461168601842, finished := false,
                   running := true, err := none },
            e := { r := ⟨[]⟩, FrameDuration := 20, truncateCalls := 0 },
            sent := [], tasks := [TaskState.counting] }
        (Action.task 0 true)).s.framesSent = 461168601843 ∧
    (PlaybackPosition { paused := false, framesSent := 461168601842, finished := false,
                        running := true, err := none } 20).2 = 9223372036840000000 ∧
    (PlaybackPosition
        (step { s := { paused := false, framesSent := 461168601842, finished := false,
                       running := true, err := none },
                e := { r := ⟨[]⟩, FrameDuration := 20, truncateCalls := 0 },
                sent := [], tasks := [TaskState.counting] }
          (Action.task 0 true)).s 20).2 < 0 ∧
    (step { s := { paused := false, framesSent := 9223372036854775807, finished := false,
                   running := true, err := none },
            e := { r := ⟨[]⟩, FrameDuration := 20, truncateCalls := 0 },
            sent := [], tasks := [TaskState.counting] }
        (Action.task 0 true)).s.framesSent < 9223372036854775807 := by
  decide

/-- C15, amended. `framesSent` counts successful handoffs, within the range of
the 64-bit integers.  On a session with `0 ≤ framesSent < 2 ^ 63 - 1`: a
successful handoff appends the frame to the sink and leaves the task before
its increment, without touching the session's fields; that increment raises
`framesSent` by exactly 1; no other action (a failed decode, a sink timeout,
`SetPaused`, a status query, a task starting or exiting) changes `framesSent`;
hence `framesSent` never decreases, and `PlaybackPosition` does not decrease
for a `FrameDuration ≥ 0` as long as `(framesSent + 1) × FrameDuration ×
1000000` stays below `2 ^ 63`. -/
theorem C15_framesSent_counts (w : World) (a : Action)
    (hlo : 0 ≤ w.s.framesSent) (hhi : w.s.framesSent + 1 < 2 ^ 63) :
    (∀ i opus, a = Action.task i true → w.tasks[i]? = some (TaskState.sending opus) →
      (step w a).sent = w.sent ++ [opus] ∧
      (step w a).tasks[i]? = some TaskState.counting ∧
      (step w a).s = w.s) ∧
    (∀ i accept, a = Action.task i accept → w.tasks[i]? = some TaskState.counting →
      (step w a).s.framesSent = w.s.framesSent + 1) ∧
    ((∀ i accept, a = Action.task i accept → w.tasks[i]? ≠ some TaskState.counting) →
      (step w a).s.framesSent = w.s.framesSent) ∧
    w.s.framesSent ≤ (step w a).s.framesSent ∧
    (∀ frameDuration : Int, 0 ≤ frameDuration →
      (w.s.framesSent + 1) * frameDuration * 1000000 < 2 ^ 63 →
      (PlaybackPosition w.s frameDuration).2
        ≤ (PlaybackPosition (step w a).s frameDuration).2) := by
  have hw : wrapInt64 (w.s.framesSent + 1) = w.s.framesSent + 1 :=
    wrapInt64_of_range _ (by omega) hhi
  have hcases : (step w a).s.framesSent = w.s.framesSent ∨
      (step w a).s.framesSent = w.s.framesSent + 1 := by
    rcases step_framesSent_cases w a with h | h
    · exact Or.inl h
    · exact Or.inr (h.trans hw)
  refine ⟨?_, ?_, step_framesSent_of_not_counting w a, ?_, ?_⟩
  · intro i opus ha hi
    subst ha
    simp [step, streamStep, hi, getElem?_set_of_some _ _ _ _ hi]
  · intro i accept ha hi
    subst ha
    simp only [step, streamStep_framesSent, hi, if_true, hw]
  · rcases hcases with h | h <;> omega
  · intro fd hfd hrange
    have hn1 : 0 ≤ (step w a).s.framesSent := by rcases hcases with h | h <;> omega
    have hle : w.s.framesSent ≤ (step w a).s.framesSent := by
      rcases hcases with h | h <;> omega
    have hle1 : (step w a).s.framesSent ≤ w.s.framesSent + 1 := by
      rcases hcases with h | h <;> omega
    have hp1 : w.s.framesSent * fd ≤ (step w a).s.framesSent * fd :=
      Int.mul_le_mul_of_nonneg_right hle hfd
    have hp2 : (step w a).s.framesSent * fd ≤ (w.s.framesSent + 1) * fd :=
      Int.mul_le_mul_of_nonneg_right hle1 hfd
    rw [PlaybackPosition_exact w.s fd hlo hfd (by omega),
      PlaybackPosition_exact (step w a).s fd hn1 hfd (by omega)]
    omega

/-- Witness of C15 amended: the increment after the third handoff. -/
theorem C15_framesSent_counts_witness :
    (step { s := { paused := false, framesSent := 2, finished := false,
                   running := true, err := none },
            e := { r := ⟨[]⟩, FrameDuration := 20, truncateCalls := 0 },
            sent := [[1], [2], [3]], tasks := [TaskState.counting] }
        (Action.task 0 true)).s.framesSent = 2 + 1 :=
  (C15_framesSent_counts _ (Action.task 0 true) (by decide) (by decide)).2.1 0 true rfl rfl

/-- C16. `PlaybackPosition` returns `framesSent × FrameDuration` milliseconds
as a `time.Duration`: for non-negative `framesSent` and `FrameDuration` the
result is the product `framesSent × FrameDuration × 1000000` nanoseconds as
64-bit arithmetic keeps it, which is the product itself whenever that is
below `2 ^ 63`; the call changes no field of the session. -/
theorem C16_PlaybackPosition (s : StreamingSession) (frameDuration : Int)
    (hn : 0 ≤ s.framesSent) (hd : 0 ≤ frameDuration) :
    (PlaybackPosition s frameDuration).2
      = wrapInt64 (s.framesSent * frameDuration * 1000000) ∧
    (s.framesSent * frameDuration * 1000000 < 2 ^ 63 →
      (PlaybackPosition s frameDuration).2 = s.framesSent * frameDuration * 1000000) ∧
    (PlaybackPosition s frameDuration).1 = s ∧
    (∀ w : World, step w Action.PlaybackPosition = w) := by
  exact ⟨PlaybackPosition_eq_wrap s frameDuration,
    PlaybackPosition_exact s frameDuration hn hd, rfl, fun w => rfl⟩

/-- Witness of C16: 1500 frames of 20 ms are 30 s. -/
theorem C16_PlaybackPosition_witness :
    (PlaybackPosition { paused := false, framesSent := 1500, finished := false,
                        running := true, err := none } 20).2 = 30000000000 :=
  ((C16_PlaybackPosition _ 20 (by decide) (by decide)).2.1 (by decide)).trans (by decide)

/-- C17. Delivery-task failure handling: when the task `i` is about to decode
and `DecodeFrame` fails with the error `err`, its next three steps (the
decode, the critical section of the failure, the deferred exit) set
`finished`, record `err` as the session's error exactly when it is not
`io.EOF` (on `io.EOF` the error is left as it was, unset if it was unset),
call `Truncate` on the encoder source once, and leave the task returned with
`running` false, `paused` and `framesSent` unchanged and nothing handed to the
sink. -/
theorem C17_decode_failure (w : World) (i : Nat) (err : Error) (r : Reader)
    (a1 a2 a3 : Bool) (hi : w.tasks[i]? = some TaskState.decoding)
    (hdec : DecodeFrame w.e.r = (Result.err err, r)) :
    (run w [Action.task i a1, Action.task i a2, Action.task i a3]).s.finished = true ∧
    (run w [Action.task i a1, Action.task i a2, Action.task i a3]).s.err
      = (if err ≠ Error.EOF then some err else w.s.err) ∧
    (err = Error.EOF → w.s.err = none →
      (run w [Action.task i a1, Action.task i a2, Action.task i a3]).s.err = none) ∧
    (run w [Action.task i a1, Action.task i a2, Action.task i a3]).e.truncateCalls
      = w.e.truncateCalls + 1 ∧
    (run w [Action.task i a1, Action.task i a2, Action.task i a3]).s.running = false ∧
    (run w [Action.task i a1, Action.task i a2, Action.task i a3]).tasks[i]?
      = some TaskState.done ∧
    (run w [Action.task i a1, Action.task i a2, Action.task i a3]).s.paused = w.s.paused ∧
    (run w [Action.task i a1, Action.task i a2, Action.task i a3]).s.framesSent
      = w.s.framesSent ∧
    (run w [Action.task i a1, Action.task i a2, Action.task i a3]).sent = w.sent := by
  have h1 : step w (Action.task i a1) =
      { w with e := { w.e with r := r }, tasks := w.tasks.set i (TaskState.failed err) } := by
    simp [step, streamStep, hi, hdec]
  have hi1 : (w.tasks.set i (TaskState.failed err))[i]? = some (TaskState.failed err) :=
    getElem?_set_of_some _ _ _ _ hi
  have hi2 : ((w.tasks.set i (TaskState.failed err)).set i TaskState.exiting)[i]?
      = some TaskState.exiting := getElem?_set_of_some _ _ _ _ hi1
  have hi3 : (((w.tasks.set i (TaskState.failed err)).set i TaskState.exiting).set i
      TaskState.done)[i]? = some TaskState.done := getElem?_set_of_some _ _ _ _ hi2
  simp only [run, h1]
  simp only [step, streamStep, hi1, hi2, hi3, EncodeSession.Truncate]
  refine ⟨trivial, trivial, ?_, trivial, trivial, trivial, trivial, trivial, trivial⟩
  intro he hnone
  simp [he, hnone]

/-- Witness of C17: a source that ends inside a frame. -/
theorem C17_decode_failure_witness :
    (run { s := { paused := false, framesSent := 4, finished := false, running := true,
                  err := none },
           e := { r := ⟨[3, 0, 9]⟩, FrameDuration := 20, truncateCalls := 0 },
           sent := [[1], [2], [3], [4]], tasks := [TaskState.decoding] }
        [Action.task 0 true, Action.task 0 true, Action.task 0 true]).s.err
      = (if Error.TruncatedFrame ≠ Error.EOF then some Error.TruncatedFrame else none) :=
  (C17_decode_failure _ 0 Error.TruncatedFrame ⟨[]⟩ true true true (by decide) (by decide)).2.1

/-- C18. Sink timeout is a hard stop.  Let `w` be a state a session reaches
from `StreamFromEncodeSession` in which the task `i` holds a decoded frame.
When the sink does not accept the frame before the deadline, `readNext`
returns `ErrVoiceConnClosed` to the task with no field of the session changed
and nothing handed to the sink; the task's next step makes `Finished` return
`(true, ErrVoiceConnClosed)`; and in every continuation the sink holds the
same frames, `framesSent` has the same value, and, once the task has recorded
its error, `Finished` returns `(true, ErrVoiceConnClosed)`. -/
theorem C18_sink_timeout (e : EncodeSession) (acts : List Action) (w : World) (i : Nat)
    (opus : List UInt8) (hw : w = run (StreamFromEncodeSession e) acts)
    (hi : w.tasks[i]? = some (TaskState.sending opus)) :
    (step w (Action.task i false)).s = w.s ∧
    (step w (Action.task i false)).sent = w.sent ∧
    (step w (Action.task i false)).tasks[i]?
      = some (TaskState.failed Error.ErrVoiceConnClosed) ∧
    (∀ accept,
      (Finished (step (step w (Action.task i false)) (Action.task i accept)).s).2
        = (true, some Error.ErrVoiceConnClosed)) ∧
    (∀ later : List Action,
      (run (step w (Action.task i false)) later).sent = w.sent ∧
      (run (step w (Action.task i false)) later).s.framesSent = w.s.framesSent ∧
      ((run (step w (Action.task i false)) later).tasks[i]?
          ≠ some (TaskState.failed Error.ErrVoiceConnClosed) →
        (Finished (run (step w (Action.task i false)) later).s).2
          = (true, some Error.ErrVoiceConnClosed))) := by
  have hex : Exclusive w.s.running w.tasks := by
    rw [hw]
    exact run_Exclusive _ acts (StreamFromEncodeSession_Exclusive e)
  have hstep : (step w (Action.task i false)).tasks[i]?
      = some (TaskState.failed Error.ErrVoiceConnClosed) := by
    simp only [step, streamStep, hi, Bool.false_eq_true, if_false]
    exact getElem?_set_of_some _ _ _ _ hi
  refine ⟨?_, ?_, hstep, ?_, ?_⟩
  · simp [step, streamStep, hi]
  · simp [step, streamStep, hi]
  · intro accept
    generalize step w (Action.task i false) = w1 at hstep
    simp [Finished, step, streamStep, hstep]
  · intro later
    obtain ⟨hsent, hn, hphase⟩ := run_Halted _ _ i _ later (Halted_of_timeout _ i opus hex hi)
    refine ⟨hsent, hn, ?_⟩
    intro hne
    rcases hphase with ⟨hti, _, _⟩ | ⟨hfin, herr, _, _⟩
    · exact absurd hti hne
    · simp [Finished, hfin, herr]

/-- Witness of C18: the sink times out on the first frame of a two-frame
source; the task records the error and returns, and a later resume delivers
nothing. -/
theorem C18_sink_timeout_witness :
    (run (step (run (StreamFromEncodeSession
        { r := ⟨encodeFrames [[1], [2, 3]]⟩, FrameDuration := 20, truncateCalls := 0 })
        [Action.task 0 true, Action.task 0 true, Action.task 0 true])
        (Action.task 0 false))
      [Action.task 0 true, Action.task 0 true, Action.SetPaused false]).sent
      = (run (StreamFromEncodeSession
        { r := ⟨encodeFrames [[1], [2, 3]]⟩, FrameDuration := 20, truncateCalls := 0 })
        [Action.task 0 true, Action.task 0 true, Action.task 0 true]).sent :=
  ((C18_sink_timeout
    { r := ⟨encodeFrames [[1], [2, 3]]⟩, FrameDuration := 20, truncateCalls := 0 }
    [Action.task 0 true, Action.task 0 true, Action.task 0 true] _ 0 [1] rfl
    (by decide)).2.2.2.2
    [Action.task 0 true, Action.task 0 true, Action.SetPaused false]).1

/-- C20. In every state `w` a session reaches from `StreamFromEncodeSession`,
a recorded error implies a finished session (`Finished` never returns `false`
with an error), the recorded error is never `io.EOF`, and the task step that
finishes the session on `io.EOF` leaves `Finished` returning `(true, nil)`. -/
theorem C20_error_implies_finished (e : EncodeSession) (acts : List Action) (w : World)
    (hw : w = run (StreamFromEncodeSession e) acts) :
    (∀ err, (Finished w.s).2 ≠ (false, some err)) ∧
    w.s.err ≠ some Error.EOF ∧
    (∀ i accept, w.s.finished = false →
      w.tasks[i]? = some (TaskState.failed Error.EOF) →
      (Finished (step w (Action.task i accept)).s).2 = (true, none)) := by
  obtain ⟨h1, h2⟩ := run_err_inv (StreamFromEncodeSession e) acts
    (fun h => absurd rfl h) (by simp [StreamFromEncodeSession])
  rw [← hw] at h1 h2
  refine ⟨?_, h2, ?_⟩
  · intro err hc
    simp only [Finished, Prod.mk.injEq] at hc
    have hfin := h1 (by rw [hc.2]; simp)
    rw [hc.1] at hfin
    exact absurd hfin (by decide)
  · intro i accept hfin hi
    have hnone : w.s.err = none := by
      by_contra hne
      rw [h1 hne] at hfin
      exact absurd hfin (by decide)
    simp [Finished, step, streamStep, hi, hnone]

/-- Witness of C20: a one-frame source played to its end. -/
theorem C20_error_implies_finished_witness :
    (Finished (step (run (StreamFromEncodeSession
        { r := ⟨encodeFrames [[1]]⟩, FrameDuration := 20, truncateCalls := 0 })
        [Action.task 0 true, Action.task 0 true, Action.task 0 true, Action.task 0 true,
          Action.task 0 true, Action.task 0 true, Action.task 0 true])
      (Action.task 0 true)).s).2 = (true, none) :=
  (C20_error_implies_finished
    { r := ⟨encodeFrames [[1]]⟩, FrameDuration := 20, truncateCalls := 0 }
    [Action.task 0 true, Action.task 0 true, Action.task 0 true, Action.task 0 true,
      Action.task 0 true, Action.task 0 true, Action.task 0 true] _ rfl).2.2 0 true
    (by decide) (by decide)

end Claims

end Dca
